import Mathlib

/-!
Shallow embedding of the SOP document loader / search utility
(`mcp_servers/servers/sop_data_loader.py`) together with the
name-normalising MCP tool wrapper (`mcp_servers/servers/sop_mcp_server.py`).

Modelling conventions:
* Python strings are modelled as `List Char` (`Str`); `str.lower`, `str.strip`
  and the `re` character classes `\s`, `\d` are modelled over the ASCII range
  that the loader's documents use.
* The regular expressions of the source are embedded as specialised
  backtracking matchers with Python `re` semantics, including the facts that
  `\s` matches newlines, that `$` with `re.MULTILINE` matches before a newline
  or at the end, and that an unanchored pattern may match in mid-line.
* Relevance scores are modelled in `ℚ`.  Every score the code produces is an
  integer multiple of 1/10, and on those values Python's float arithmetic
  followed by `round(x, 2)` agrees with exact rational arithmetic.
* Wall-clock values (`datetime.now()`) are modelled as abstract `Nat`
  timestamps handed to the cache operations; the purely informational
  `last_modified` / `storage_location` / `file_size` record fields, which no
  claim mentions, are not carried in the records.
* I/O and `boto3` calls are modelled by explicit outcome parameters
  (`Except`/`Option` values describing what the backend returned or that it
  raised), since the code catches the corresponding exceptions.
-/

abbrev Str := List Char

/-- Python whitespace (`str.strip`, regex `\s`) over the ASCII range. -/
def isPySpace (c : Char) : Bool :=
  c == ' ' || c == '\t' || c == '\n' || c == '\r' || c == '\x0b' || c == '\x0c'

/-- Python `str.lower` (ASCII range). -/
def pyLower (c : Char) : Char := c.toLower

def lowerStr (l : Str) : Str := l.map pyLower

/-- Python `str.strip()`. -/
def stripStr (l : Str) : Str :=
  ((l.dropWhile isPySpace).reverse.dropWhile isPySpace).reverse

/-- Longest prefix not containing a newline (what `(.+)` can consume at most,
since `.` does not match `\n` outside `re.DOTALL`). -/
def takeLine (l : Str) : Str := l.takeWhile (fun c => c != '\n')

/-- Length of the maximal whitespace run at the front (greedy `\s*` / `\s+`). -/
def wsRun (l : Str) : Nat := (l.takeWhile isPySpace).length

/-- Length of the maximal digit run at the front (greedy `\d+`). -/
def digitRun (l : Str) : Nat := (l.takeWhile (fun c => c.isDigit)).length

/-- Length of the maximal `#` run at the front. -/
def hashRun (l : Str) : Nat := (l.takeWhile (fun c => c == '#')).length

/-- Python `str.count` for a nonempty needle: non-overlapping occurrences,
scanning left to right.  The `skip` counter carries the characters of a match
still to be stepped over (structural recursion on the text, so that the
kernel can evaluate the definition). -/
def countOccAux (needle : Str) : Nat → Str → Nat
  | _, [] => 0
  | skip + 1, _ :: rest => countOccAux needle skip rest
  | 0, c :: rest =>
    if needle.isPrefixOf (c :: rest) then
      1 + countOccAux needle (needle.length - 1) rest
    else
      countOccAux needle 0 rest

/-- Python `str.count` (with Python's `len(s)+1` answer for an empty needle;
the loader only ever counts the nonempty search keyword). -/
def countOcc (needle : Str) (l : Str) : Nat :=
  if needle = [] then l.length + 1 else countOccAux needle 0 l

/-- All positions at which `needle` occurs (the `find`/`start = pos + 1` loop
of `_extract_excerpts`; unlike `str.count` this records overlapping
occurrences). -/
def findPositionsFrom (needle : Str) : Str → Nat → List Nat
  | [], _ => []
  | c :: rest, i =>
    (if needle.isPrefixOf (c :: rest) then [i] else []) ++
      findPositionsFrom needle rest (i + 1)

def findPositions (needle l : Str) : List Nat := findPositionsFrom needle l 0

/-- Case-insensitive literal match at the front (`re.IGNORECASE` literals);
`pat` is given already lowercased. -/
def ciPrefix (pat l : Str) : Bool := lowerStr (l.take pat.length) == pat

/-- Backtracking helper: largest index `j` with `lo ≤ j < b` such that the
character of `l` at `j` is present and is not a newline.  This is where a
greedy trailing `\s*`/`\s+` gives characters back so that a following `(.+)`
can start. -/
def backSearch (l : Str) (lo : Nat) : Nat → Option Nat
  | 0 => none
  | b + 1 =>
    if b < lo then none
    else
      match l.get? b with
      | some c => if c = '\n' then backSearch l lo b else some b
      | none => backSearch l lo b

/-- Matches `\s+(.+)$` (with `re.MULTILINE`) at the front of `l`; returns the
text captured by `(.+)` and the number of characters consumed.  The `\s+` run
is greedy and may cross newlines; if the run reaches the end of the string it
backtracks just enough to leave a non-newline character for `(.+)`. -/
def afterWsTitle (l : Str) : Option (Str × Nat) :=
  let r := wsRun l
  if r = 0 then none
  else
    let rest := l.drop r
    if rest ≠ [] then
      some (takeLine rest, r + (takeLine rest).length)
    else
      match backSearch l 1 r with
      | some k => some (takeLine (l.drop k), k + (takeLine (l.drop k)).length)
      | none => none

/-- Matches `^(#{1,3})\s+(.+)$` (`re.MULTILINE`) at a line-start position:
returns (heading level, raw title, characters consumed).  `#{1,3}` is greedy
but backtracking never helps: with four or more `#`s every choice leaves a `#`
where `\s+` needs whitespace. -/
def matchHeadingAt (l : Str) : Option (Nat × Str × Nat) :=
  let r := hashRun l
  if r = 0 ∨ 3 < r then none
  else
    match afterWsTitle (l.drop r) with
    | some (t, c) => some (r, t, r + c)
    | none => none

/-- `re.finditer(r'^(#{1,3})\s+(.+)$', content, re.MULTILINE)`, keeping the
stripped titles with their levels.  Candidate positions are line starts; a
successful match always ends at a newline or at the end of the string, and the
scan resumes after the match (line starts consumed by a match that crossed
newlines are skipped, as `finditer` does). -/
def scanHeadingsAux : Nat → Str → List (Nat × Str)
  | _, [] => []
  | skip + 1, _ :: rest => scanHeadingsAux skip rest
  | 0, c :: rest =>
    match matchHeadingAt (c :: rest) with
    | some (lvl, t, consumed) => (lvl, stripStr t) :: scanHeadingsAux consumed rest
    | none => scanHeadingsAux (takeLine (c :: rest)).length rest

def scanHeadings (l : Str) : List (Nat × Str) := scanHeadingsAux 0 l

/-- `SOPDataLoader._find_section_for_position`: headings of `content[:position]`,
returning the most recent one (`headings[-1][1]`), if any. -/
def find_section_for_position (content : Str) (position : Nat) : Option Str :=
  ((scanHeadings (content.take position)).getLast?).map (·.2)

/-- Matches `^#\s+(.+)$` at a line start (the title pattern): a single `#`
followed by whitespace.  On `##` the `\s+` fails, so no guard is needed. -/
def matchTitleAt (l : Str) : Option Str :=
  match l with
  | '#' :: rest => (afterWsTitle rest).map (·.1)
  | _ => none

/-- `re.search(r'^#\s+(.+)$', content, re.MULTILINE)`: first line-start match. -/
def findTitleAux : Nat → Str → Option Str
  | _, [] => none
  | skip + 1, _ :: rest => findTitleAux skip rest
  | 0, c :: rest =>
    match matchTitleAt (c :: rest) with
    | some t => some t
    | none => findTitleAux (takeLine (c :: rest)).length rest

def findTitle (l : Str) : Option Str := findTitleAux 0 l

/-- Backtracking search for the trailing `\s*` of the optional section label
`(\d+\.?\s*)?`: try `slen = b, b-1, …, 0` whitespace characters and take the
first choice that leaves a non-newline character for `(.+)`.  The argument `b`
is one past the candidate; candidates run downward from `wsRun r2`. -/
def trySlen (r2 : Str) : Nat → Option Nat
  | 0 =>
    match r2.head? with
    | some c => if c = '\n' then none else some 0
    | none => none
  | k + 1 =>
    match (r2.drop (k + 1)).head? with
    | some c => if c = '\n' then trySlen r2 k else some (k + 1)
    | none => trySlen r2 k

/-- Backtracking for `\.?\s*` after the digits of the optional label: prefer
consuming the dot (greedy `?`), and within each choice run `trySlen`. -/
def tryDot (r1 : Str) : Option (Nat × Nat) :=
  let withDot : Option (Nat × Nat) :=
    match r1.head? with
    | some '.' =>
      match trySlen (r1.drop 1) (wsRun (r1.drop 1)) with
      | some s => some (1, s)
      | none => none
    | _ => none
  match withDot with
  | some v => some v
  | none => (trySlen r1 (wsRun r1)).map (fun s => (0, s))

/-- Backtracking for the greedy `\d+` of the optional label: try the maximal
digit run first, then shorter ones, down to one digit. -/
def tryDigits (rest : Str) : Nat → Option (Nat × Nat × Nat)
  | 0 => none
  | d + 1 =>
    match tryDot (rest.drop (d + 1)) with
    | some (dot, s) => some (d + 1, dot, s)
    | none => tryDigits rest d

/-- The optional numeric label `(\d+\.?\s*)?` in Python's backtracking order;
returns (digit count, dot count, trailing-whitespace count) of the label, or
`none` when the group matches as absent. -/
def tryLabel (rest : Str) : Option (Nat × Nat × Nat) :=
  tryDigits rest (digitRun rest)

/-- Matches `^##\s+(\d+\.?\s*)?(.+)$` (`re.MULTILINE`) at a line start,
returning the stripped section number (empty when the label group is absent),
the stripped section title, and the characters consumed.  Mirrors Python
backtracking: the leading `\s+` is greedy (and may cross newlines); a present
label is preferred over an absent one; the label gives back characters from
the right so that `(.+)` is nonempty. -/
def matchSectionAt (l : Str) : Option (Str × Str × Nat) :=
  match l with
  | '#' :: '#' :: l2 =>
    let r := wsRun l2
    if r = 0 then none
    else
      let rest := l2.drop r
      if rest = [] then
        match backSearch l2 1 r with
        | some k =>
          let t := takeLine (l2.drop k)
          some ([], stripStr t, 2 + k + t.length)
        | none => none
      else
        match tryLabel rest with
        | some (d, dot, s) =>
          let lab := rest.take (d + dot + s)
          let t := takeLine (rest.drop (d + dot + s))
          some (stripStr lab, stripStr t, 2 + r + d + dot + s + t.length)
        | none =>
          let t := takeLine rest
          some ([], stripStr t, 2 + r + t.length)
  | _ => none

/-- `re.finditer(r'^##\s+(\d+\.?\s*)?(.+)$', content, re.MULTILINE)`:
candidates are line starts; matches end at a newline or at the end, and the
scan resumes after the match. -/
def scanSectionsAux : Nat → Str → List (Str × Str)
  | _, [] => []
  | skip + 1, _ :: rest => scanSectionsAux skip rest
  | 0, c :: rest =>
    match matchSectionAt (c :: rest) with
    | some (n, t, consumed) => (n, t) :: scanSectionsAux consumed rest
    | none => scanSectionsAux (takeLine (c :: rest)).length rest

def scanSections (l : Str) : List (Str × Str) := scanSectionsAux 0 l

/-- Matches the subsection pattern
`rf'###\s+{re.escape(section_number)}\.(\d+)\s+(.+)$'` (`re.MULTILINE`, not
line-anchored) at the front of `l`, for the stripped section number `num`
(a digit run, optionally followed by a dot, so `re.escape` is the identity on
its characters and `num ++ "."` is matched literally).  Returns the digits of
`(\d+)`, the raw `(.+)` capture and the characters consumed.  The whitespace
runs are greedy and may cross newlines; backtracking into `\s+` before the
literal or into `(\d+)` can never succeed, while the `\s+` before `(.+)`
gives characters back exactly as in `afterWsTitle`. -/
def matchSubAt (num : Str) (l : Str) : Option (Str × Str × Nat) :=
  match l with
  | '#' :: '#' :: '#' :: l3 =>
    let r := wsRun l3
    if r = 0 then none
    else
      let rest := l3.drop r
      if (num ++ ['.']).isPrefixOf rest then
        let r1 := rest.drop (num.length + 1)
        let d := digitRun r1
        if d = 0 then none
        else
          match afterWsTitle (r1.drop d) with
          | some (t, c) => some (r1.take d, t, 3 + r + num.length + 1 + d + c)
          | none => none
      else none
  | _ => none

/-- The body of the `finditer` loop over the subsection pattern, building the
`f"{section_number}.{sub_num} {title}"` strings: the scan tries every index
(the pattern has no `^`), and resumes at the end of each match (every match
consumes at least its three `#` characters, so stepping over `consumed - 1`
further characters after the current one is the match's end). -/
def scanSubsAux (num : Str) : Nat → Str → List Str
  | _, [] => []
  | skip + 1, _ :: rest => scanSubsAux num skip rest
  | 0, c :: rest =>
    match matchSubAt num (c :: rest) with
    | some (d, t, consumed) =>
      (num ++ ['.'] ++ d ++ [' '] ++ stripStr t) :: scanSubsAux num (consumed - 1) rest
    | none => scanSubsAux num 0 rest

def scanSubs (num : Str) (l : Str) : List Str := scanSubsAux num 0 l

/-- Largest `j < b` such that the character of `l` at `j` is a newline: where
the greedy `\s*` of `\s*\n` backtracks so that the literal `\n` can match. -/
def lastNlBefore (l : Str) : Nat → Option Nat
  | 0 => none
  | j + 1 => if l.get? j = some '\n' then some j else lastNlBefore l j

/-- The lazy capture `(.*?)(?=\n##|\n---|\Z)` (with `re.DOTALL`): the shortest
prefix after whose end the remainder starts with `"\n##"` or `"\n---"` or is
the end of the string. -/
def captureUpTo : Str → Str
  | [] => []
  | c :: rest =>
    if ("\n##".toList).isPrefixOf (c :: rest) ∨ ("\n---".toList).isPrefixOf (c :: rest) then []
    else c :: captureUpTo rest

/-- Matches `##\s+Document Control\s*\n(.*?)(?=\n##|\n---|\Z)`
(`re.DOTALL | re.IGNORECASE`, unanchored) at the front of `l`, returning the
capture.  The `\s+` is greedy (backtracking cannot help, since the literal
starts with a non-whitespace letter); `\s*\n` makes the capture start right
after the last newline of the whitespace run following the literal. -/
def matchControlAt (l : Str) : Option Str :=
  match l with
  | '#' :: '#' :: l2 =>
    let r := wsRun l2
    if r = 0 then none
    else
      let rest := l2.drop r
      if ciPrefix ("document control".toList) rest then
        let r2full := rest.drop 16
        match lastNlBefore r2full (wsRun r2full) with
        | some j => some (captureUpTo (r2full.drop (j + 1)))
        | none => none
      else none
  | _ => none

/-- `re.search` for the Document Control section pattern: leftmost match over
all start positions (the pattern is unanchored). -/
def findControl : Str → Option Str
  | [] => none
  | c :: rest =>
    match matchControlAt (c :: rest) with
    | some cc => some cc
    | none => findControl rest

/-- The tail `\s*(.+?)(?:\n|$)` of a metadata field pattern, applied right
after the label literal: skip the greedy `\s*` run (which may cross newlines),
then capture up to the end of the line.  When everything to the end of the
string is whitespace, `\s*` backtracks to the last position holding a
non-newline character; if there is none the whole attempt fails (and
`re.search` moves on). -/
def fieldValueAt (l : Str) : Option Str :=
  let r := wsRun l
  let rest := l.drop r
  if rest ≠ [] then some (stripStr (takeLine rest))
  else
    match backSearch l 0 r with
    | some j => some (stripStr (takeLine (l.drop j)))
    | none => none

/-- `re.search(rf'\*\*{Label}:\*\*\s*(.+?)(?:\n|$)', control_content,
re.IGNORECASE)` followed by `.group(1).strip()`: scan every start position for
the case-insensitive label literal (given lowercased, including the `**…:**`
punctuation); where the literal matches but no value can follow, the scan
moves on, exactly as `re.search` does. -/
def searchField (labelLower : Str) : Str → Option Str
  | [] => none
  | c :: rest =>
    if ciPrefix labelLower (c :: rest) then
      match fieldValueAt ((c :: rest).drop labelLower.length) with
      | some v => some v
      | none => searchField labelLower rest
    else searchField labelLower rest

/-- `len(content.split())` helper: count maximal non-whitespace runs, tracking
whether the scan is currently inside a run. -/
def tokenCountAux : Bool → Str → Nat
  | _, [] => 0
  | inTok, c :: rest =>
    if isPySpace c then tokenCountAux false rest
    else (if inTok then 0 else 1) + tokenCountAux true rest

/-- `len(content.split())`: number of maximal nonempty non-whitespace runs. -/
def tokenCount (l : Str) : Nat := tokenCountAux false l

structure SectionInfo where
  number : Str
  title : Str
  subsections : List Str
deriving DecidableEq, Repr

/-- The metadata record built by `SOPDataLoader._parse_sop_metadata`.  Every
field is initialised (header fields to the empty string) and only overwritten
when its pattern matches, so no key is ever absent.  The wall-clock
`last_modified` and the constructor-derived `storage_location` fields carry no
behaviour and are omitted. -/
structure SopMetadata where
  name : Str
  title : Str
  document_id : Str
  version : Str
  effective_date : Str
  review_date : Str
  owner : Str
  approved_by : Str
  word_count : Nat
  sections : List SectionInfo
deriving DecidableEq, Repr

/-- One header field: the regex-matched value if any, else the empty-string
initial value. -/
def fieldOrEmpty (cc : Option Str) (labelLower : Str) : Str :=
  match cc with
  | none => []
  | some c => (searchField labelLower c).getD []

/-- `SOPDataLoader._parse_sop_metadata`.  The broad `try/except` around the
parsing body never fires in this pure model (the modelled operations are
total), so it is not represented. -/
def parse_sop_metadata (content fname : Str) : SopMetadata :=
  let cc := findControl content
  { name := fname
    title := ((findTitle content).map stripStr).getD []
    document_id := fieldOrEmpty cc ("**document id:**".toList)
    version := fieldOrEmpty cc ("**version:**".toList)
    effective_date := fieldOrEmpty cc ("**effective date:**".toList)
    review_date := fieldOrEmpty cc ("**review date:**".toList)
    owner := fieldOrEmpty cc ("**owner:**".toList)
    approved_by := fieldOrEmpty cc ("**approved by:**".toList)
    word_count := tokenCount content
    sections := (scanSections content).map (fun p => ⟨p.1, p.2, scanSubs p.1 content⟩) }

/-- A loaded SOP document: the metadata fields plus the raw content
(`{**metadata, 'content': content, …}` in `load_sops`). -/
structure SopDoc where
  name : Str
  title : Str
  document_id : Str
  version : Str
  effective_date : Str
  review_date : Str
  owner : Str
  approved_by : Str
  word_count : Nat
  sections : List SectionInfo
  content : Str
deriving DecidableEq, Repr

/-- The entry `load_sops` stores for one successfully read file. -/
def mkEntry (fname content : Str) : SopDoc :=
  let m := parse_sop_metadata content fname
  { name := m.name, title := m.title, document_id := m.document_id
    version := m.version, effective_date := m.effective_date
    review_date := m.review_date, owner := m.owner
    approved_by := m.approved_by, word_count := m.word_count
    sections := m.sections, content := content }

/-- One excerpt / match entry (`{'section': …, 'text': …, 'match_count': …}`).
`section` is a Lean keyword, so the field is called `sectionName`. -/
structure Excerpt where
  sectionName : Str
  text : Str
  match_count : Nat
deriving DecidableEq, Repr

/-- `section_name or 'Content'`: Python `or` falls through both on `None` and
on an empty string. -/
def orContent : Option Str → Str
  | none => "Content".toList
  | some s => if s = [] then "Content".toList else s

/-- The excerpt built for the match at `pos` in `_extract_excerpts`
(`context_chars = 150`): the window `[max(0, pos-150), min(len, pos+len(kw)+150))`,
stripped, wrapped in `...` markers exactly when the window is a proper
subrange, labelled with the nearest preceding heading, with the keyword count
of the stripped (unwrapped) text. -/
def mkExcerpt (content kw : Str) (pos : Nat) : Excerpt :=
  let s := pos - 150
  let e := min content.length (pos + kw.length + 150)
  let t := stripStr ((content.drop s).take (e - s))
  { sectionName := orContent (find_section_for_position content pos)
    text := if 0 < s ∨ e < content.length then "...".toList ++ t ++ "...".toList else t
    match_count := countOcc (lowerStr kw) (lowerStr t) }

/-- The window of the match at `pos` (Python `max(0, pos-150)` is `pos - 150`
in `Nat` arithmetic). -/
def excerptWindow (contentLen kwLen pos : Nat) : Nat × Nat :=
  (pos - 150, min contentLen (pos + kwLen + 150))

/-- The loop body of `_extract_excerpts`: for each candidate position, skip it
when its window overlaps one of `used_ranges` or when three excerpts have been
collected; otherwise append the excerpt and its window. -/
def extractAux (content kw : Str) : List Nat → List (Nat × Nat) → List Excerpt →
    List Excerpt × List (Nat × Nat)
  | [], used, acc => (acc, used)
  | pos :: ps, used, acc =>
    let w := excerptWindow content.length kw.length pos
    let overlapped := used.any (fun r => !(decide (w.2 ≤ r.1) || decide (r.2 ≤ w.1)))
    if overlapped = false ∧ acc.length < 3 then
      extractAux content kw ps (used ++ [w]) (acc ++ [mkExcerpt content kw pos])
    else
      extractAux content kw ps used acc

/-- `SOPDataLoader._extract_excerpts(content, keyword)` as called by
`search_sops` (`max_excerpts = 3`, `context_chars = 150`): match positions are
found in the lowercased text, only the first `max_excerpts * 2 = 6` are
considered. -/
def extract_excerpts (content kw : Str) : List Excerpt :=
  (extractAux content kw ((findPositions (lowerStr kw) (lowerStr content)).take 6) [] []).1

/-- One search result
(`{'name', 'title', 'document_id', 'relevance_score', 'total_matches', 'excerpts'}`). -/
structure SearchResult where
  name : Str
  title : Str
  document_id : Str
  relevance_score : ℚ
  total_matches : Nat
  excerpts : List Excerpt
deriving DecidableEq, Repr

/-- Python `round(x, 2)`.  All scores the loader produces are integer
multiples of 1/10, so `x * 100` is an integer and no tie-breaking (banker's
rounding, float representation) is ever exercised. -/
def round2 (q : ℚ) : ℚ := (round (q * 100) : ℚ) / 100

/-- The match entries collected for one document: the title entry (when the
scope includes the title and the title has matches) followed by the content
excerpts (when the scope includes the content and the content has matches).
Re-packing the excerpt dictionaries with `excerpt.get('section', 'Content')`
is the identity, since `_extract_excerpts` always sets `'section'`. -/
def matchesFor (kw searchIn : Str) (d : SopDoc) : List Excerpt :=
  let kwL := lowerStr kw
  let titleEntries : List Excerpt :=
    if (searchIn = "title".toList ∨ searchIn = "all".toList) ∧
        0 < countOcc kwL (lowerStr d.title) then
      [⟨"Title".toList, d.title, countOcc kwL (lowerStr d.title)⟩]
    else []
  let contentEntries : List Excerpt :=
    if (searchIn = "content".toList ∨ searchIn = "all".toList) ∧
        0 < countOcc kwL (lowerStr d.content) then
      extract_excerpts d.content kw
    else []
  titleEntries ++ contentEntries

/-- `total_matches` for one document: the title count and the full content
count, each added only when its scope branch ran and found matches (adding a
zero count is the identity, so the `> 0` guards do not change the sum). -/
def totalMatchesFor (kw searchIn : Str) (d : SopDoc) : Nat :=
  let kwL := lowerStr kw
  (if searchIn = "title".toList ∨ searchIn = "all".toList then
    countOcc kwL (lowerStr d.title) else 0) +
  (if searchIn = "content".toList ∨ searchIn = "all".toList then
    countOcc kwL (lowerStr d.content) else 0)

/-- `sum(m['match_count'] for m in matches if m['section'] == 'Title')`. -/
def titleMatchSum (ms : List Excerpt) : Nat :=
  (ms.filter (fun m => m.sectionName = "Title".toList)).foldr
    (fun m n => m.match_count + n) 0

/-- The relevance score: `min(total/10, 1.0)`, then `min(score + 0.3, 1.0)`
when the match entries whose `'section'` is `'Title'` have a positive summed
`match_count`, then `round(score, 2)`. -/
def relevanceFor (kw searchIn : Str) (d : SopDoc) : ℚ :=
  let total := totalMatchesFor kw searchIn d
  let base : ℚ := min ((total : ℚ) / 10) 1
  if 0 < titleMatchSum (matchesFor kw searchIn d) then round2 (min (base + 3/10) 1)
  else round2 base

/-- The result `search_sops` appends for one document, when it has matches. -/
def resultFor (kw searchIn : Str) (d : SopDoc) : Option SearchResult :=
  if 0 < totalMatchesFor kw searchIn d then
    some { name := d.name, title := d.title, document_id := d.document_id
           relevance_score := relevanceFor kw searchIn d
           total_matches := totalMatchesFor kw searchIn d
           excerpts := (matchesFor kw searchIn d).take 5 }
  else none

/-- Stable insertion used to model `results.sort(key=…, reverse=True)`:
an element is placed after every earlier element whose score is not smaller,
which is exactly the stable descending order Python's stable sort produces. -/
def insertByScore (x : SearchResult) : List SearchResult → List SearchResult
  | [] => [x]
  | y :: t =>
    if y.relevance_score < x.relevance_score then x :: y :: t
    else y :: insertByScore x t

/-- Stable sort by descending `relevance_score`. -/
def sortByScore (l : List SearchResult) : List SearchResult :=
  l.foldl (fun acc x => insertByScore x acc) []

/-- `SOPDataLoader.search_sops(keyword, search_in)` over the loaded documents
(`sops.values()` in insertion order).  An unrecognised `search_in` value makes
both scope membership tests false, so no match is ever counted. -/
def search_sops (docs : List SopDoc) (kw searchIn : Str) : List SearchResult :=
  if stripStr kw = [] then []
  else sortByScore (docs.filterMap (resultFor kw searchIn))

/-- The loader's document cache: a Python `dict` as an insertion-ordered
association list with unique keys. -/
abbrev SopMap := List (Str × SopDoc)

/-- Python `dict.get`: first (unique) binding of the key. -/
def findDoc : SopMap → Str → Option SopDoc
  | [], _ => none
  | (k, d) :: t, n => if k = n then some d else findDoc t n

/-- Python `dict` assignment `sops[filename] = …`: replace in place if the key
exists, otherwise append. -/
def assocSet : SopMap → Str → SopDoc → SopMap
  | [], k, v => [(k, v)]
  | (k', v') :: t, k, v =>
    if k' = k then (k, v) :: t else (k', v') :: assocSet t k v

/-- The loop body of `load_sops`: for each listed filename, the read outcome
(`None` for a failed read); files whose read failed are skipped. -/
def buildSops (items : List (Str × Option Str)) : SopMap :=
  items.foldl
    (fun acc it =>
      match it.2 with
      | some content => assocSet acc it.1 (mkEntry it.1 content)
      | none => acc)
    []

/-- The outcome of `_init_s3_client`'s connectivity check
(`head_bucket`): success, `NoCredentialsError`, `ClientError`, or any other
exception. -/
inductive ConnCheck where
  | ok
  | noCredentials
  | clientError
  | otherError
deriving DecidableEq, Repr

/-- The loader's mutable state: the storage-mode flags set by the constructor
and `_init_s3_client`, and the document cache with its timestamp.
`datetime.now()` values are abstract `Nat` instants. -/
structure LoaderState where
  use_s3 : Bool
  has_s3_client : Bool
  sop_cache : SopMap
  cache_timestamp : Option Nat
deriving DecidableEq, Repr

/-- `SOPDataLoader.__init__`: caches start empty; when S3 is requested,
`_init_s3_client` runs its connectivity check and, on `NoCredentialsError`,
`ClientError` or any other exception, logs and permanently resets
`use_s3 = False`, `_s3_client = None`. -/
def mkLoader (useS3 : Bool) (conn : ConnCheck) : LoaderState :=
  if useS3 then
    match conn with
    | .ok => ⟨true, true, [], none⟩
    | _ => ⟨false, false, [], none⟩
  else ⟨false, false, [], none⟩

/-- `SOPDataLoader._is_cache_valid` at instant `now` (TTL 3600 seconds;
`Nat` subtraction and Python's signed elapsed-seconds give the same verdict,
since a negative elapsed time is also `< 3600`). -/
def is_cache_valid (st : LoaderState) (now : Nat) : Bool :=
  match st.cache_timestamp with
  | none => false
  | some t => decide (now - t < 3600)

/-- `SOPDataLoader.load_sops(force_refresh)` at instant `now`.  The backend
pass is an explicit outcome: `.ok items` is a full, exception-free pass over
the listed files with their read results, `.error ()` is an exception
somewhere in the listing/reading/parsing body.  Returns the mapping the call
returns together with the state after the call. -/
def load_sops (st : LoaderState) (now : Nat) (force : Bool)
    (pass : Except Unit (List (Str × Option Str))) : SopMap × LoaderState :=
  if force = false ∧ is_cache_valid st now = true ∧ st.sop_cache ≠ [] then
    (st.sop_cache, st)
  else
    match pass with
    | .ok items =>
      let sops := buildSops items
      (sops, { st with sop_cache := sops, cache_timestamp := some now })
    | .error _ =>
      ((if st.sop_cache ≠ [] then st.sop_cache else []), st)

/-- `SOPDataLoader.clear_cache`: empty the cache, unset the timestamp, touch
nothing else and trigger no reload (the operation consumes no backend pass). -/
def clear_cache (st : LoaderState) : LoaderState :=
  { st with sop_cache := [], cache_timestamp := none }

/-- One operation on a loader instance, with the backend outcome it consumed:
`load` covers `load_sops` and every query that goes through it
(`get_sop_by_name`, `get_sop_by_id`, `list_sops`, `search_sops`), with
`force = true` also covering `refresh_cache`. -/
inductive LoaderOp where
  | load (now : Nat) (force : Bool) (pass : Except Unit (List (Str × Option Str)))
  | clear
deriving Repr

def applyOp (st : LoaderState) : LoaderOp → LoaderState
  | .load now force pass => (load_sops st now force pass).2
  | .clear => clear_cache st

def runOps (st : LoaderState) : List LoaderOp → LoaderState
  | [] => st
  | op :: ops => runOps (applyOp st op) ops

/-- What the local directory yielded: missing directory, an `os.listdir`
error, or the entries with their `os.path.isfile` verdicts. -/
inductive LocalDir where
  | missing
  | listError
  | ok (entries : List (Str × Bool))
deriving Repr

/-- Lexicographic `≤` on strings by code point (Python string ordering for the
`sorted`/`sort` calls). -/
def strLe : Str → Str → Bool
  | [], _ => true
  | _ :: _, [] => false
  | a :: as, b :: bs =>
    if a.toNat < b.toNat then true
    else if b.toNat < a.toNat then false
    else strLe as bs

def insertStr (x : Str) : List Str → List Str
  | [] => [x]
  | y :: t => if strLe x y then x :: y :: t else y :: insertStr x t

/-- Python `sorted` on strings. -/
def sortStrs (l : List Str) : List Str := l.foldr insertStr []

/-- `SOPDataLoader._list_local_files`: `[]` for a missing directory or on any
listing error, otherwise the sorted `.md` regular files.  Every outcome is a
plain list — the method never raises. -/
def list_local_files : LocalDir → List Str
  | .missing => []
  | .listError => []
  | .ok entries =>
    sortStrs ((entries.filter
      (fun e => (".md".toList).isSuffixOf e.1 && e.2)).map (·.1))

/-- Python `str.replace(pat, '')`: remove all non-overlapping occurrences,
left to right (the identity for an empty pattern, as replacing `''` by `''`
is). -/
def removeAllAux (pat : Str) : Nat → Str → Str
  | _, [] => []
  | skip + 1, _ :: rest => removeAllAux pat skip rest
  | 0, c :: rest =>
    if pat.isPrefixOf (c :: rest) then removeAllAux pat (pat.length - 1) rest
    else c :: removeAllAux pat 0 rest

def removeAll (pat l : Str) : Str :=
  if pat = [] then l else removeAllAux pat 0 l

/-- `SOPDataLoader._list_s3_files`: `[]` on any client error, otherwise the
sorted keys with the prefix removed (`key.replace(self.s3_prefix, '')`),
keeping `.md` names without a path separator. -/
def list_s3_files (outcome : Except Unit (List Str)) (keyPre : Str) : List Str :=
  match outcome with
  | .error _ => []
  | .ok keys =>
    sortStrs ((keys.map (removeAll keyPre)).filter
      (fun f => (".md".toList).isSuffixOf f && !(f.contains '/')))

/-- The backend outcomes available to one `_list_sop_files` call. -/
structure ListEnv where
  localDir : LocalDir
  s3Outcome : Except Unit (List Str)
  s3KeyPre : Str

/-- `SOPDataLoader._list_sop_files`: S3 only when `use_s3` is set and a client
exists, otherwise the local directory. -/
def list_sop_files (st : LoaderState) (env : ListEnv) : List Str :=
  if st.use_s3 && st.has_s3_client then list_s3_files env.s3Outcome env.s3KeyPre
  else list_local_files env.localDir

/-- The result of the `get_sop_by_name` MCP tool: the document, or the
not-found payload carrying the available names (`list_sops()` is sorted by
name). -/
inductive GetSopResult where
  | found (d : SopDoc)
  | notFound (available : List Str)
deriving DecidableEq, Repr

/-- `SOPDataLoader.get_sop_by_name` over the loaded mapping: a plain
dictionary lookup (no normalisation at this layer). -/
def get_sop_by_name (sops : SopMap) (name : Str) : Option SopDoc :=
  findDoc sops name

/-- The `get_sop_by_name` MCP tool (`sop_mcp_server.py`): append `.md` when
the name does not already end with it, then look the normalised key up;
when nothing is found, return the not-found payload. -/
def server_get_sop_by_name (sops : SopMap) (name : Str) : GetSopResult :=
  let key := if (".md".toList).isSuffixOf name then name else name ++ ".md".toList
  match get_sop_by_name sops key with
  | some d => .found d
  | none => .notFound (sortStrs (sops.map (fun p => p.2.name)))

/-- The lines of a document (`content.split('\n')`), used to state claims of
the form “a document with headings …”. -/
def linesOf (l : Str) : List Str := l.splitOn '\n'

/-- Rebuild a document from its lines (the inverse of `linesOf`). -/
def joinLines : List Str → Str
  | [] => []
  | [L] => L
  | L :: M :: ls => L ++ '\n' :: joinLines (M :: ls)

/-- A title piece that stays inside its line and leaves the greedy whitespace
runs of the heading patterns no room to cross a newline: nonempty, no `#`, no
newline, and no leading or trailing whitespace. -/
def cleanTitle (T : Str) : Bool :=
  match T with
  | [] => false
  | c :: _ =>
    !isPySpace c && T.all (fun x => x != '#' && x != '\n') &&
      (match T.getLast? with
       | some d => !isPySpace d
       | none => true)

/-- `true` for the head of a nonempty list that is not a digit. -/
def firstNonDigit (T : Str) : Bool :=
  match T with
  | [] => false
  | c :: _ => !c.isDigit

/-- Heading-discipline for one line of a document, under which the loader's
multiline regex scans behave line-locally: a line either mentions no `#` at
all, or is a well-formed heading of level 1–3.  Level-2 headings carry either
no numeric label and a title that does not start with a digit, or a label of
the form `n ` ; level-3 headings have the form `### a.b title`. -/
inductive CleanLine : Str → Prop where
  | noHash (L : Str) : L.all (fun c => c != '#' && c != '\n') = true → CleanLine L
  | lvl1 (T : Str) : cleanTitle T = true → CleanLine ('#' :: ' ' :: T)
  | lvl2 (T : Str) : cleanTitle T = true → firstNonDigit T = true →
      CleanLine ('#' :: '#' :: ' ' :: T)
  | lvl2lab (ds T : Str) : ds ≠ [] → (∀ c ∈ ds, c.isDigit = true) →
      cleanTitle T = true → CleanLine ('#' :: '#' :: ' ' :: (ds ++ ' ' :: T))
  | lvl3 (a b T : Str) : a ≠ [] → (∀ c ∈ a, c.isDigit = true) →
      b ≠ [] → (∀ c ∈ b, c.isDigit = true) → cleanTitle T = true →
      CleanLine ('#' :: '#' :: '#' :: ' ' :: (a ++ '.' :: b ++ ' ' :: T))

/-- Modelled from the spec's outline wording, for the refinement comparison:
the section entry one clean line contributes — a second-level heading with an
optional numeric label. -/
def lineSectionEntry (L : Str) : Option (Str × Str) :=
  match L with
  | '#' :: '#' :: ' ' :: rest =>
    let ds := rest.takeWhile (fun c => c.isDigit)
    if ds = [] then some ([], rest)
    else
      match rest.drop ds.length with
      | ' ' :: t => some (ds, t)
      | _ => none
  | _ => none

/-- Modelled from the spec's outline wording, for the refinement comparison:
the subsection entry one clean line contributes to the section numbered
`num` — a third-level heading `### num.b title`. -/
def lineSubEntry (num L : Str) : Option Str :=
  match L with
  | '#' :: '#' :: '#' :: ' ' :: rest =>
    let a := rest.takeWhile (fun c => c.isDigit)
    match rest.drop a.length with
    | '.' :: r2 =>
      let b := r2.takeWhile (fun c => c.isDigit)
      match r2.drop b.length with
      | ' ' :: t =>
        if a = num ∧ a ≠ [] ∧ b ≠ [] then some (num ++ ['.'] ++ b ++ [' '] ++ t)
        else none
      | _ => none
    | _ => none
  | _ => none

/-- The header fields of the Document Control block. -/
inductive HeaderField where
  | documentId
  | version
  | effectiveDate
  | reviewDate
  | owner
  | approvedBy
deriving DecidableEq, Repr

/-- The (lowercased) label literal of each field pattern
(`\*\*Document ID:\*\*` etc.). -/
def fieldLabel : HeaderField → Str
  | .documentId => "**document id:**".toList
  | .version => "**version:**".toList
  | .effectiveDate => "**effective date:**".toList
  | .reviewDate => "**review date:**".toList
  | .owner => "**owner:**".toList
  | .approvedBy => "**approved by:**".toList

/-- The metadata record field each label fills. -/
def getHeaderField (m : SopMetadata) : HeaderField → Str
  | .documentId => m.document_id
  | .version => m.version
  | .effectiveDate => m.effective_date
  | .reviewDate => m.review_date
  | .owner => m.owner
  | .approvedBy => m.approved_by

/-- The two documents of the spec's search scenario. -/
def exampleDocA : SopDoc :=
  mkEntry ("a.md".toList) ("Torque limit is 500 Nm. See torque section.".toList)

def exampleDocB : SopDoc :=
  mkEntry ("b.md".toList) ("No relevant terms.".toList)

/-- The search result `search_sops` produces for `exampleDocA` and the
keyword `torque` under scope `all`. -/
def torqueResult : SearchResult :=
  { name := exampleDocA.name
    title := exampleDocA.title
    document_id := exampleDocA.document_id
    relevance_score := relevanceFor ("torque".toList) ("all".toList) exampleDocA
    total_matches := totalMatchesFor ("torque".toList) ("all".toList) exampleDocA
    excerpts := (matchesFor ("torque".toList) ("all".toList) exampleDocA).take 5 }

/-- A document whose only `Title` text is a second-level *heading* named
`Title`; the keyword `valve` never occurs in the document title
(`Pump manual`). -/
def c3Doc : SopDoc :=
  mkEntry ("a.md".toList) ("# Pump manual\n## Title\nvalve maintenance valve".toList)

/-- Content for which the excerpt of the only ` x` match is stripped down to
`x`, so its `match_count` is `0` although its section label is `Title`. -/
def c9Content : Str := "## Title\n".toList ++ List.replicate 150 ' ' ++ ['x']

def c9Doc : SopDoc := mkEntry ("w.md".toList) c9Content

/-- A document containing both heading lines `## 1 Setup` and
`### 1.1 Prerequisites`, in which the unanchored subsection pattern
nevertheless swallows the `### 1.1 Prerequisites` line: its `\s+` crosses the
newline after the malformed heading `### 1.1`. -/
def c7Content : Str := "## 1 Setup\n### 1.1\n### 1.1 Prerequisites".toList

/-- A document with a well-formed Document Control block (three labelled
fields) and an outline with one numbered section and subsection. -/
def ctrlDocContent : Str :=
  ("# Emergency SOP\n\n## Document Control\n**Document ID:** SOP-PROC-001\n" ++
   "**Version:** 2.0\n**Owner:** Jan\n\n## 1 Setup\n### 1.1 Prerequisites\n" ++
   "Body text here.\n").toList

/-- The stripped window slice `content[max(0,pos-150) : min(len,pos+len(kw)+150)]`
of the match at `pos` (before the strip). -/
def windowSlice (content kw : Str) (pos : Nat) : Str :=
  (content.drop (pos - 150)).take (min content.length (pos + kw.length + 150) - (pos - 150))

/-! ## Helper lemmas -/

theorem mem_insertByScore (x y : SearchResult) (l : List SearchResult) :
    x ∈ insertByScore y l ↔ x = y ∨ x ∈ l := by
  induction l with
  | nil => simp [insertByScore]
  | cons z t ih =>
    unfold insertByScore
    split
    · simp [List.mem_cons]
    · simp only [List.mem_cons, ih]
      tauto

theorem mem_foldl_insertByScore (l : List SearchResult) (acc : List SearchResult)
    (x : SearchResult) :
    x ∈ l.foldl (fun acc y => insertByScore y acc) acc ↔ x ∈ acc ∨ x ∈ l := by
  induction l generalizing acc with
  | nil => simp
  | cons y t ih =>
    simp only [List.foldl_cons, ih, mem_insertByScore, List.mem_cons]
    tauto

theorem mem_sortByScore (x : SearchResult) (l : List SearchResult) :
    x ∈ sortByScore l ↔ x ∈ l := by
  unfold sortByScore
  rw [mem_foldl_insertByScore]
  simp

theorem mem_search_sops {docs : List SopDoc} {kw s : Str} {r : SearchResult}
    (h : r ∈ search_sops docs kw s) : ∃ d ∈ docs, resultFor kw s d = some r := by
  unfold search_sops at h
  split at h
  · cases h
  · rw [mem_sortByScore] at h
    exact List.mem_filterMap.mp h

/-! ## Claim C10 -/

/-- Claim C10: for every keyword and every scope value other than `title`,
`content` or `all` (e.g. a misspelled scope), `search_sops` counts no matches
in any document and returns the empty list, without raising an error or
signalling that the scope value was invalid. -/
theorem claim_c10 (docs : List SopDoc) (kw s : Str)
    (h1 : s ≠ "title".toList) (h2 : s ≠ "content".toList) (h3 : s ≠ "all".toList) :
    search_sops docs kw s = [] := by
  unfold search_sops
  split
  · rfl
  · have hnone : ∀ d : SopDoc, resultFor kw s d = none := by
      intro d
      unfold resultFor
      rw [if_neg]
      intro hpos
      unfold totalMatchesFor at hpos
      simp only [] at hpos
      rw [if_neg, if_neg] at hpos
      · simp at hpos
      · rintro (hc | hc)
        · exact h2 hc
        · exact h3 hc
      · rintro (hc | hc)
        · exact h1 hc
        · exact h3 hc
    have hfm : docs.filterMap (resultFor kw s) = [] := by
      induction docs with
      | nil => rfl
      | cons d ds ih => rw [List.filterMap_cons, hnone d, ih]
    rw [hfm]
    rfl

/-- Witness for C10 at the concrete scope `"ALL"` (case-sensitive mismatch)
with a document that would match under scope `"all"`. -/
theorem claim_c10_witness :
    ("ALL".toList ≠ ("all".toList : Str)) ∧
    search_sops [exampleDocA] ("torque".toList) ("ALL".toList) = [] :=
  ⟨by decide,
   claim_c10 [exampleDocA] ("torque".toList) ("ALL".toList)
     (by decide) (by decide) (by decide)⟩

/-! ## Claim C2 -/

/-- Claim C2: the get-by-key operation normalises its key by appending `.md`
when missing, so that over every loaded document store the tool calls for
`x` and for `x.md` return the same record, and the lookup yields the found
record exactly when one exists under the normalised key — otherwise the
not-found payload (the loader-level lookup returning `None`). -/
theorem claim_c2 (sops : SopMap) (name : Str)
    (h : (".md".toList).isSuffixOf name = false) :
    server_get_sop_by_name sops name = server_get_sop_by_name sops (name ++ ".md".toList) ∧
    (∀ d, get_sop_by_name sops (name ++ ".md".toList) = some d →
      server_get_sop_by_name sops name = .found d) ∧
    (get_sop_by_name sops (name ++ ".md".toList) = none →
      server_get_sop_by_name sops name =
        .notFound (sortStrs (sops.map (fun p => p.2.name)))) := by
  have hsuf : (".md".toList).isSuffixOf (name ++ ".md".toList) = true := by
    rw [List.isSuffixOf_iff_suffix]
    exact List.suffix_append name (".md".toList)
  have hkey : server_get_sop_by_name sops name =
      match get_sop_by_name sops (name ++ ".md".toList) with
      | some d => .found d
      | none => .notFound (sortStrs (sops.map (fun p => p.2.name))) := by
    unfold server_get_sop_by_name
    rw [if_neg (by rw [h]; simp)]
  refine ⟨?_, ?_, ?_⟩
  · rw [hkey]
    unfold server_get_sop_by_name
    rw [if_pos hsuf]
  · intro d hd
    rw [hkey, hd]
  · intro hd
    rw [hkey, hd]

/-- Witness for C2 on a one-document store and the bare name `a`. -/
theorem claim_c2_witness :
    ((".md".toList).isSuffixOf ("a".toList) = false) ∧
    server_get_sop_by_name [("a.md".toList, exampleDocA)] ("a".toList) =
      server_get_sop_by_name [("a.md".toList, exampleDocA)] ("a".toList ++ ".md".toList) :=
  ⟨by decide, (claim_c2 [("a.md".toList, exampleDocA)] ("a".toList) (by decide)).1⟩

/-! ## Claim C5 -/

theorem load_sops_flags (st : LoaderState) (now : Nat) (force : Bool)
    (pass : Except Unit (List (Str × Option Str))) :
    (load_sops st now force pass).2.use_s3 = st.use_s3 ∧
    (load_sops st now force pass).2.has_s3_client = st.has_s3_client := by
  unfold load_sops
  split
  · exact ⟨rfl, rfl⟩
  · cases pass
    · exact ⟨rfl, rfl⟩
    · exact ⟨rfl, rfl⟩

theorem runOps_flags (ops : List LoaderOp) (st : LoaderState) :
    (runOps st ops).use_s3 = st.use_s3 ∧
    (runOps st ops).has_s3_client = st.has_s3_client := by
  induction ops generalizing st with
  | nil => exact ⟨rfl, rfl⟩
  | cons op ops ih =>
    have h2 := ih (applyOp st op)
    cases op with
    | load now force pass =>
      have h1 := load_sops_flags st now force pass
      exact ⟨h2.1.trans h1.1, h2.2.trans h1.2⟩
    | clear => exact ⟨h2.1, h2.2⟩

/-- Claim C5: if remote mode is requested at construction and the connectivity
check fails with an authentication (`NoCredentialsError`) or access
(`ClientError`) error, the instance permanently falls back to local mode for
its lifetime — no later operation ever restores the S3 flags — and every
subsequent list-keys call uses the local backend, which returns a plain list
(the empty one on a missing directory or listing error) and never raises. -/
theorem claim_c5 (conn : ConnCheck)
    (h : conn = ConnCheck.noCredentials ∨ conn = ConnCheck.clientError) :
    (mkLoader true conn).use_s3 = false ∧
    (mkLoader true conn).has_s3_client = false ∧
    (∀ ops : List LoaderOp,
      (runOps (mkLoader true conn) ops).use_s3 = false ∧
      (runOps (mkLoader true conn) ops).has_s3_client = false) ∧
    (∀ (ops : List LoaderOp) (env : ListEnv),
      list_sop_files (runOps (mkLoader true conn) ops) env =
        list_local_files env.localDir) ∧
    list_local_files LocalDir.missing = [] ∧
    list_local_files LocalDir.listError = [] := by
  have hflag : (mkLoader true conn).use_s3 = false ∧
      (mkLoader true conn).has_s3_client = false := by
    rcases h with h | h <;> subst h <;> exact ⟨rfl, rfl⟩
  have hrun : ∀ ops : List LoaderOp,
      (runOps (mkLoader true conn) ops).use_s3 = false ∧
      (runOps (mkLoader true conn) ops).has_s3_client = false := by
    intro ops
    have := runOps_flags ops (mkLoader true conn)
    exact ⟨this.1.trans hflag.1, this.2.trans hflag.2⟩
  refine ⟨hflag.1, hflag.2, hrun, ?_, rfl, rfl⟩
  intro ops env
  unfold list_sop_files
  rw [if_neg]
  rw [(hrun ops).1]
  simp

/-- Witness for C5: after a failed credentials check and a cache-clearing
operation, listing falls through to the (erroring) local backend. -/
theorem claim_c5_witness :
    (ConnCheck.noCredentials = ConnCheck.noCredentials ∨
      ConnCheck.noCredentials = ConnCheck.clientError) ∧
    list_sop_files (runOps (mkLoader true ConnCheck.noCredentials) [LoaderOp.clear])
      ⟨LocalDir.listError, Except.error (), "sop/".toList⟩ =
      list_local_files LocalDir.listError :=
  ⟨Or.inl rfl,
   (claim_c5 ConnCheck.noCredentials (Or.inl rfl)).2.2.2.1 [LoaderOp.clear]
     ⟨LocalDir.listError, Except.error (), "sop/".toList⟩⟩

/-! ## Claim C6 -/

/-- Claim C6: `load_sops` with `force_refresh = false` returns the cached
mapping unchanged whenever the cache is populated and its age is below the
one-hour TTL; `clear_cache` empties the cache and unsets the timestamp
without touching anything else and without consuming a backend pass, and the
next load after `clear_cache` performs a full reload from the backend — its
result and new cache are built from the backend items — even though the TTL
has not elapsed. -/
theorem claim_c6 (st : LoaderState) (now t : Nat)
    (pass : Except Unit (List (Str × Option Str)))
    (h1 : st.cache_timestamp = some t) (h2 : now - t < 3600)
    (h3 : st.sop_cache ≠ []) :
    load_sops st now false pass = (st.sop_cache, st) ∧
    (clear_cache st).sop_cache = [] ∧
    (clear_cache st).cache_timestamp = none ∧
    (clear_cache st).use_s3 = st.use_s3 ∧
    (clear_cache st).has_s3_client = st.has_s3_client ∧
    (∀ (now2 : Nat) (items : List (Str × Option Str)),
      load_sops (clear_cache st) now2 false (Except.ok items) =
        (buildSops items,
         { clear_cache st with
             sop_cache := buildSops items, cache_timestamp := some now2 })) := by
  refine ⟨?_, rfl, rfl, rfl, rfl, ?_⟩
  · unfold load_sops
    rw [if_pos]
    exact ⟨rfl, by unfold is_cache_valid; rw [h1]; simpa using h2, h3⟩
  · intro now2 items
    unfold load_sops
    rw [if_neg]
    intro hcontra
    exact hcontra.2.2 rfl

/-- Witness for C6 at a concrete populated cache aged 90 seconds. -/
theorem claim_c6_witness :
    ((⟨false, false, [("a.md".toList, exampleDocA)], some 10⟩ : LoaderState).cache_timestamp
        = some 10) ∧
    (100 - 10 < 3600) ∧
    load_sops ⟨false, false, [("a.md".toList, exampleDocA)], some 10⟩ 100 false
        (Except.error ()) =
      ([("a.md".toList, exampleDocA)],
       ⟨false, false, [("a.md".toList, exampleDocA)], some 10⟩) :=
  ⟨rfl, by omega,
   (claim_c6 ⟨false, false, [("a.md".toList, exampleDocA)], some 10⟩ 100 10
     (Except.error ()) rfl (by omega) (by simp)).1⟩

/-! ## Claim C1 -/

/-- Claim C1 (amended): the cache mapping and timestamp change only through a
full, exception-free pass: a `load_sops` call whose pass raised returns the
previously cached mapping (the empty mapping exactly when the cache was empty
at that point) and leaves the state untouched, and any call that changes the
state is one whose pass completed with `.ok`, which replaces the whole cache
and sets the timestamp.  (The original claim's "an empty mapping is returned
only when no prior load ever succeeded" fails: a successful pass over an
empty backend also leaves an empty cache — see the counterexample.) -/
theorem claim_c1_amended (st : LoaderState) (now : Nat) (force : Bool) :
    (load_sops st now force (Except.error ())).1 = st.sop_cache ∧
    (load_sops st now force (Except.error ())).2 = st ∧
    ((load_sops st now force (Except.error ())).1 = [] ↔ st.sop_cache = []) ∧
    (∀ pass, (load_sops st now force pass).2 ≠ st →
      ∃ items, pass = Except.ok items ∧
        (load_sops st now force pass).1 = buildSops items ∧
        (load_sops st now force pass).2 =
          { st with sop_cache := buildSops items, cache_timestamp := some now }) := by
  have h1 : (load_sops st now force (Except.error ())).1 = st.sop_cache := by
    unfold load_sops
    split
    · rfl
    · by_cases hc : st.sop_cache = []
      · simp [hc]
      · simp [hc]
  have h2 : (load_sops st now force (Except.error ())).2 = st := by
    unfold load_sops
    split
    · rfl
    · rfl
  refine ⟨h1, h2, by rw [h1], ?_⟩
  intro pass hne
  unfold load_sops at hne ⊢
  split at hne
  · exact absurd rfl hne
  · cases pass with
    | error e => exact absurd rfl hne
    | ok items =>
      rename_i hcond
      rw [if_neg hcond]
      exact ⟨items, rfl, rfl, rfl⟩

/-- Witness for C1 (amended): on an empty initial cache, an exception pass
returns the empty previous cache and leaves the state unchanged, and an
`.ok` pass that does change the state installs exactly the built mapping. -/
theorem claim_c1_amended_witness :
    (load_sops ⟨false, false, [], none⟩ 9 false (Except.error ())).1 = [] ∧
    (∃ items, (Except.ok [("a.md".toList, some ("x".toList))] :
        Except Unit (List (Str × Option Str))) = Except.ok items ∧
      (load_sops ⟨false, false, [], none⟩ 9 false
        (Except.ok [("a.md".toList, some ("x".toList))])).1 = buildSops items ∧
      (load_sops ⟨false, false, [], none⟩ 9 false
        (Except.ok [("a.md".toList, some ("x".toList))])).2 =
        { (⟨false, false, [], none⟩ : LoaderState) with
            sop_cache := buildSops items,
            cache_timestamp := some 9 }) :=
  ⟨(claim_c1_amended ⟨false, false, [], none⟩ 9 false).1,
   (claim_c1_amended ⟨false, false, [], none⟩ 9 false).2.2.2
     (Except.ok [("a.md".toList, some ("x".toList))]) (by decide)⟩

/-- Claim C1 counterexample: the claim states that (on an exception mid-pass)
an empty mapping is returned only when no prior load ever succeeded.  Here
the first load is a full, successful (`.ok`) pass over an empty backend — it
sets the cache timestamp — yet the following load, whose pass raises, returns
the empty mapping. -/
theorem claim_c1_counterexample :
    (load_sops ⟨false, false, [], none⟩ 0 false (Except.ok [])).2.cache_timestamp
      = some 0 ∧
    (load_sops ((load_sops ⟨false, false, [], none⟩ 0 false (Except.ok [])).2) 1 false
      (Except.error ())).1 = [] := by
  constructor
  · rfl
  · rfl

/-! ## Score lemmas -/

theorem round2_natDiv10 (n : ℕ) : round2 ((n : ℚ) / 10) = (n : ℚ) / 10 := by
  unfold round2
  have h : ((n : ℚ) / 10) * 100 = ((10 * n : ℕ) : ℚ) := by push_cast; ring
  rw [h, round_natCast]
  push_cast
  ring

theorem min_div10 (n : ℕ) : min ((n : ℚ) / 10) 1 = ((min n 10 : ℕ) : ℚ) / 10 := by
  rcases le_total n 10 with h | h
  · rw [min_eq_left h,
      min_eq_left ((div_le_one (by norm_num)).mpr (by exact_mod_cast h))]
  · rw [min_eq_right h,
      min_eq_right ((le_div_iff₀ (by norm_num)).mpr (by
        have : (10 : ℚ) ≤ (n : ℚ) := by exact_mod_cast h
        linarith))]
    norm_num

theorem addBonus_div10 (k : ℕ) : ((k : ℚ) / 10) + 3 / 10 = ((k + 3 : ℕ) : ℚ) / 10 := by
  push_cast
  ring

/-- The relevance score with the (here vacuous) two-decimal rounding removed:
`min(total/10, 1.0)` plus the capped `0.3` bonus exactly when the `'Title'`-
labelled match entries have a positive summed count. -/
theorem relevanceFor_eq (kw s : Str) (d : SopDoc) :
    relevanceFor kw s d =
      if 0 < titleMatchSum (matchesFor kw s d) then
        min (min ((totalMatchesFor kw s d : ℚ) / 10) 1 + 3 / 10) 1
      else min ((totalMatchesFor kw s d : ℚ) / 10) 1 := by
  unfold relevanceFor
  simp only []
  split
  · rw [min_div10 (totalMatchesFor kw s d), addBonus_div10,
      min_div10 (min (totalMatchesFor kw s d) 10 + 3), round2_natDiv10]
  · rw [min_div10 (totalMatchesFor kw s d), round2_natDiv10]

theorem resultFor_some {kw s : Str} {d : SopDoc} {r : SearchResult}
    (h : resultFor kw s d = some r) :
    r = { name := d.name, title := d.title, document_id := d.document_id,
          relevance_score := relevanceFor kw s d,
          total_matches := totalMatchesFor kw s d,
          excerpts := (matchesFor kw s d).take 5 } ∧
    0 < totalMatchesFor kw s d := by
  unfold resultFor at h
  split at h
  · exact ⟨(Option.some.inj h).symm, by assumption⟩
  · cases h

theorem totalMatchesFor_all (kw : Str) (d : SopDoc) :
    totalMatchesFor kw ("all".toList) d =
      countOcc (lowerStr kw) (lowerStr d.title) +
      countOcc (lowerStr kw) (lowerStr d.content) := by
  unfold totalMatchesFor
  simp

theorem search_sops_singleton (d : SopDoc) (kw s : Str) (hk : stripStr kw ≠ []) :
    search_sops [d] kw s = (resultFor kw s d).toList := by
  unfold search_sops
  rw [if_neg hk]
  cases hres : resultFor kw s d with
  | none => simp [hres, sortByScore]
  | some r => simp [hres, sortByScore, insertByScore]

/-! ## Claim C3 -/

/-- Claim C3 counterexample: the claim says the score is raised by the
`0.3` bonus exactly when at least one match occurred in the *title*, and in
particular equals `min(N/10, 1.0)` when the keyword is absent from the title.
In `c3Doc` the keyword `valve` never occurs in the title `Pump manual`, yet
the only result's score is not `min(2/10, 1) = 0.2`: the content excerpt is
labelled by the literal heading `## Title`, which triggers the bonus
(the score is `0.5`). -/
theorem claim_c3_counterexample :
    ∃ r ∈ search_sops [c3Doc] ("valve".toList) ("all".toList),
      countOcc (lowerStr ("valve".toList)) (lowerStr c3Doc.title) = 0 ∧
      r.total_matches = 2 ∧
      r.relevance_score ≠ min ((r.total_matches : ℚ) / 10) 1 := by
  have hres : resultFor ("valve".toList) ("all".toList) c3Doc = some
      { name := c3Doc.name, title := c3Doc.title, document_id := c3Doc.document_id,
        relevance_score := relevanceFor ("valve".toList) ("all".toList) c3Doc,
        total_matches := totalMatchesFor ("valve".toList) ("all".toList) c3Doc,
        excerpts := (matchesFor ("valve".toList) ("all".toList) c3Doc).take 5 } := by
    unfold resultFor
    rw [if_pos (by decide)]
  rw [search_sops_singleton _ _ _ (by decide), hres]
  refine ⟨_, List.mem_singleton.mpr rfl, by decide, by decide, ?_⟩
  have ht : totalMatchesFor ("valve".toList) ("all".toList) c3Doc = 2 := by decide
  simp only [relevanceFor_eq, if_pos (by decide :
    0 < titleMatchSum (matchesFor ("valve".toList) ("all".toList) c3Doc)), ht]
  rw [min_div10 2, addBonus_div10, min_div10]
  norm_num

/-- Claim C3 (amended): for every cached document and keyword searched with
scope `all`, a result's `total_matches` is the title count plus the content
count, and its relevance score equals `min(total/10, 1.0)`, increased by
`0.3` and capped again at `1.0` exactly when the match entries labelled
`'Title'` carry a positive summed match count — which covers genuine title
matches, but also content excerpts whose nearest preceding heading is
literally named `Title`.  In particular, when that sum is zero (keyword
absent from the title and no `'Title'`-labelled excerpt with a match), the
score is exactly `min(N/10, 1.0)`. -/
theorem claim_c3_amended (docs : List SopDoc) (kw : Str) (r : SearchResult)
    (h : r ∈ search_sops docs kw ("all".toList)) :
    ∃ d ∈ docs,
      r.total_matches =
        countOcc (lowerStr kw) (lowerStr d.title) +
        countOcc (lowerStr kw) (lowerStr d.content) ∧
      (0 < titleMatchSum (matchesFor kw ("all".toList) d) →
        r.relevance_score = min (min ((r.total_matches : ℚ) / 10) 1 + 3 / 10) 1) ∧
      (titleMatchSum (matchesFor kw ("all".toList) d) = 0 →
        r.relevance_score = min ((r.total_matches : ℚ) / 10) 1) := by
  obtain ⟨d, hd, hr⟩ := mem_search_sops h
  obtain ⟨hrec, _⟩ := resultFor_some hr
  refine ⟨d, hd, ?_, ?_, ?_⟩
  · rw [hrec]
    exact totalMatchesFor_all kw d
  · intro hb
    rw [hrec]
    show relevanceFor kw ("all".toList) d = _
    rw [relevanceFor_eq, if_pos hb]
  · intro hz
    rw [hrec]
    show relevanceFor kw ("all".toList) d = _
    rw [relevanceFor_eq, if_neg (by omega)]

theorem torqueResult_mem :
    torqueResult ∈ search_sops [exampleDocA] ("torque".toList) ("all".toList) := by
  rw [search_sops_singleton _ _ _ (by decide)]
  have hres : resultFor ("torque".toList) ("all".toList) exampleDocA = some torqueResult := by
    unfold resultFor torqueResult
    rw [if_pos (by decide)]
  rw [hres]
  exact List.mem_singleton.mpr rfl

/-- Witness for C3 (amended) at the spec's torque scenario document. -/
theorem claim_c3_amended_witness :
    torqueResult ∈ search_sops [exampleDocA] ("torque".toList) ("all".toList) ∧
    ∃ d ∈ [exampleDocA],
      torqueResult.total_matches =
        countOcc (lowerStr ("torque".toList)) (lowerStr d.title) +
        countOcc (lowerStr ("torque".toList)) (lowerStr d.content) ∧
      (0 < titleMatchSum (matchesFor ("torque".toList) ("all".toList) d) →
        torqueResult.relevance_score =
          min (min ((torqueResult.total_matches : ℚ) / 10) 1 + 3 / 10) 1) ∧
      (titleMatchSum (matchesFor ("torque".toList) ("all".toList) d) = 0 →
        torqueResult.relevance_score =
          min ((torqueResult.total_matches : ℚ) / 10) 1) :=
  ⟨torqueResult_mem,
   claim_c3_amended [exampleDocA] ("torque".toList) torqueResult torqueResult_mem⟩

/-! ## Claim C9 -/

set_option maxRecDepth 40000 in
/-- Claim C9 counterexample: the claim says the `0.3` bonus is applied
exactly when some collected excerpt carries the section label `Title`.  For
`c9Doc` and the keyword `" x"` the single content excerpt is labelled
`Title` (its section heading is literally `## Title`), but the excerpt text
was stripped down to `x`, its `match_count` is `0`, and the bonus is *not*
applied: the score stays below the claimed bonus value. -/
theorem claim_c9_counterexample :
    ∃ r ∈ search_sops [c9Doc] (" x".toList) ("all".toList),
      (∃ e ∈ r.excerpts, e.sectionName = "Title".toList) ∧
      r.relevance_score ≠ min (min ((r.total_matches : ℚ) / 10) 1 + 3 / 10) 1 := by
  have hres : resultFor (" x".toList) ("all".toList) c9Doc = some
      { name := c9Doc.name, title := c9Doc.title, document_id := c9Doc.document_id,
        relevance_score := relevanceFor (" x".toList) ("all".toList) c9Doc,
        total_matches := totalMatchesFor (" x".toList) ("all".toList) c9Doc,
        excerpts := (matchesFor (" x".toList) ("all".toList) c9Doc).take 5 } := by
    unfold resultFor
    rw [if_pos (by decide)]
  rw [search_sops_singleton _ _ _ (by decide), hres]
  refine ⟨_, List.mem_singleton.mpr rfl, by decide, ?_⟩
  have ht : totalMatchesFor (" x".toList) ("all".toList) c9Doc = 1 := by decide
  simp only [relevanceFor_eq, if_neg (by decide :
    ¬ 0 < titleMatchSum (matchesFor (" x".toList) ("all".toList) c9Doc)), ht]
  rw [min_div10 1, addBonus_div10, min_div10]
  norm_num

/-- Claim C9 (amended): the `0.3` bonus is applied exactly when the summed
`match_count` of the collected entries labelled `'Title'` is positive (not
merely when some excerpt carries the label — a stripped excerpt can carry
the label with a zero count); and a content match under a heading literally
named `Title` whose excerpt retains the keyword does trigger the bonus even
though the keyword never occurs in the document's title. -/
theorem claim_c9_amended (docs : List SopDoc) (kw : Str) (r : SearchResult)
    (h : r ∈ search_sops docs kw ("all".toList)) :
    (∃ d ∈ docs,
      r.relevance_score =
        if 0 < titleMatchSum (matchesFor kw ("all".toList) d) then
          min (min ((totalMatchesFor kw ("all".toList) d : ℚ) / 10) 1 + 3 / 10) 1
        else min ((totalMatchesFor kw ("all".toList) d : ℚ) / 10) 1) ∧
    (∃ r2 ∈ search_sops [c3Doc] ("valve".toList) ("all".toList),
      countOcc (lowerStr ("valve".toList)) (lowerStr c3Doc.title) = 0 ∧
      (∃ e ∈ r2.excerpts, e.sectionName = "Title".toList ∧ 0 < e.match_count) ∧
      r2.relevance_score = min (min ((r2.total_matches : ℚ) / 10) 1 + 3 / 10) 1) := by
  constructor
  · obtain ⟨d, hd, hr⟩ := mem_search_sops h
    obtain ⟨hrec, _⟩ := resultFor_some hr
    refine ⟨d, hd, ?_⟩
    rw [hrec]
    exact relevanceFor_eq kw ("all".toList) d
  · have hres : resultFor ("valve".toList) ("all".toList) c3Doc = some
        { name := c3Doc.name, title := c3Doc.title, document_id := c3Doc.document_id,
          relevance_score := relevanceFor ("valve".toList) ("all".toList) c3Doc,
          total_matches := totalMatchesFor ("valve".toList) ("all".toList) c3Doc,
          excerpts := (matchesFor ("valve".toList) ("all".toList) c3Doc).take 5 } := by
      unfold resultFor
      rw [if_pos (by decide)]
    rw [search_sops_singleton _ _ _ (by decide), hres]
    refine ⟨_, List.mem_singleton.mpr rfl, by decide, by decide, ?_⟩
    show relevanceFor ("valve".toList) ("all".toList) c3Doc = _
    rw [relevanceFor_eq, if_pos (by decide :
      0 < titleMatchSum (matchesFor ("valve".toList) ("all".toList) c3Doc))]

/-- Witness for C9 (amended) at the spec's torque scenario document. -/
theorem claim_c9_amended_witness :
    torqueResult ∈ search_sops [exampleDocA] ("torque".toList) ("all".toList) ∧
    (∃ d ∈ [exampleDocA],
      torqueResult.relevance_score =
        if 0 < titleMatchSum (matchesFor ("torque".toList) ("all".toList) d) then
          min (min ((totalMatchesFor ("torque".toList) ("all".toList) d : ℚ) / 10) 1 + 3 / 10) 1
        else min ((totalMatchesFor ("torque".toList) ("all".toList) d : ℚ) / 10) 1) ∧
    (∃ r2 ∈ search_sops [c3Doc] ("valve".toList) ("all".toList),
      countOcc (lowerStr ("valve".toList)) (lowerStr c3Doc.title) = 0 ∧
      (∃ e ∈ r2.excerpts, e.sectionName = "Title".toList ∧ 0 < e.match_count) ∧
      r2.relevance_score = min (min ((r2.total_matches : ℚ) / 10) 1 + 3 / 10) 1) :=
  ⟨torqueResult_mem,
   (claim_c9_amended [exampleDocA] ("torque".toList) torqueResult torqueResult_mem).1,
   (claim_c9_amended [exampleDocA] ("torque".toList) torqueResult torqueResult_mem).2⟩

/-! ## Claim C4 -/

set_option maxRecDepth 4000 in
theorem mkExcerpt_fields (content kw : Str) (pos : Nat) :
    (mkExcerpt content kw pos).sectionName =
      orContent (find_section_for_position content pos) ∧
    (mkExcerpt content kw pos).text =
      (if 0 < pos - 150 ∨ min content.length (pos + kw.length + 150) < content.length then
        "...".toList ++ stripStr (windowSlice content kw pos) ++ "...".toList
      else stripStr (windowSlice content kw pos)) ∧
    (mkExcerpt content kw pos).match_count =
      countOcc (lowerStr kw) (lowerStr (stripStr (windowSlice content kw pos))) :=
  ⟨rfl, rfl, rfl⟩

theorem overlap_check_false {used : List (Nat × Nat)} {s e : Nat}
    (h : used.any (fun r => !(decide (e ≤ r.1) || decide (r.2 ≤ s))) = false) :
    ∀ r ∈ used, e ≤ r.1 ∨ r.2 ≤ s := by
  intro r hr
  have hx := List.any_eq_false.mp h r hr
  simp only [Bool.not_eq_true', Bool.not_eq_false, Bool.or_eq_true, decide_eq_true_eq] at hx
  simpa using hx

theorem extractAux_invariant (content kw : Str) (P : List Nat) :
    ∀ (ps : List Nat) (used : List (Nat × Nat)) (acc : List Excerpt),
    (∀ p ∈ ps, p ∈ P) →
    acc.length = used.length →
    acc.length ≤ 3 →
    used.Pairwise (fun a b => a.2 ≤ b.1 ∨ b.2 ≤ a.1) →
    (∀ pr ∈ acc.zip used, ∃ pos ∈ P,
      pr.2 = excerptWindow content.length kw.length pos ∧
      pr.1 = mkExcerpt content kw pos) →
    (extractAux content kw ps used acc).1.length =
      (extractAux content kw ps used acc).2.length ∧
    (extractAux content kw ps used acc).1.length ≤ 3 ∧
    (extractAux content kw ps used acc).2.Pairwise (fun a b => a.2 ≤ b.1 ∨ b.2 ≤ a.1) ∧
    (∀ pr ∈ (extractAux content kw ps used acc).1.zip (extractAux content kw ps used acc).2,
      ∃ pos ∈ P,
        pr.2 = excerptWindow content.length kw.length pos ∧
        pr.1 = mkExcerpt content kw pos) := by
  intro ps
  induction ps with
  | nil =>
    intro used acc _ hlen hbound hpw hzip
    exact ⟨hlen, hbound, hpw, hzip⟩
  | cons pos ps ih =>
    intro used acc hps hlen hbound hpw hzip
    rw [extractAux]
    split
    · rename_i hcond
      apply ih
      · intro p hp
        exact hps p (List.mem_cons_of_mem _ hp)
      · simp only [List.length_append, List.length_cons, List.length_nil, hlen]
      · simp only [List.length_append, List.length_cons, List.length_nil]
        omega
      · rw [List.pairwise_append]
        refine ⟨hpw, List.pairwise_singleton _ _, ?_⟩
        intro a ha b hb
        rw [List.mem_singleton] at hb
        subst hb
        have hdj := overlap_check_false hcond.1 a ha
        exact hdj.symm
      · intro pr hpr
        rw [List.zip_append hlen] at hpr
        rcases List.mem_append.mp hpr with hm | hm
        · exact hzip pr hm
        · simp only [List.zip_cons_cons, List.zip_nil_left, List.zip_nil_right,
            List.mem_singleton] at hm
          subst hm
          exact ⟨pos, hps pos (List.mem_cons_self _ _), rfl, rfl⟩
    · rename_i hcond
      apply ih
      · intro p hp
        exact hps p (List.mem_cons_of_mem _ hp)
      · exact hlen
      · exact hbound
      · exact hpw
      · exact hzip

/-- Claim C4 counterexample: the claim says an excerpt is wrapped in ellipsis
markers exactly when it is truncated relative to the full content.  For the
content `" torque"` and keyword `torque` the single excerpt's window covers
the whole content, so no markers are added, but `.strip()` removed the
leading space: the excerpt text `torque` differs from the full content and is
thus truncated without being wrapped. -/
theorem claim_c4_counterexample :
    ¬ ∀ e ∈ extract_excerpts (" torque".toList) ("torque".toList),
        ((("...".toList).isPrefixOf e.text ∧ ("...".toList).isSuffixOf e.text) ↔
          e.text ≠ " torque".toList) := by decide

/-- Claim C4 (amended): for every content and keyword with at least one
content match, excerpt extraction returns at most 3 excerpts whose windows
(the second component of the loop's `used_ranges` state) are pairwise
non-overlapping; each collected excerpt belongs to a match position, its
window is the 150-character window on each side of that occurrence, its
section label is the nearest preceding heading (`'Content'` when there is
none or the heading text is empty), its text is the stripped window slice
wrapped in ellipsis markers exactly when the window is a *proper* subrange
of the content (the strip itself may shorten an unwrapped excerpt — see the
counterexample), and its match count is the keyword count of the stripped
slice; and every search result carries at most 5 excerpts. -/
theorem claim_c4_amended (content kw : Str)
    (hm : 0 < countOcc (lowerStr kw) (lowerStr content)) :
    (extract_excerpts content kw).length ≤ 3 ∧
    (extractAux content kw ((findPositions (lowerStr kw) (lowerStr content)).take 6)
        [] []).2.Pairwise (fun a b => a.2 ≤ b.1 ∨ b.2 ≤ a.1) ∧
    (extract_excerpts content kw).length =
      (extractAux content kw ((findPositions (lowerStr kw) (lowerStr content)).take 6)
        [] []).2.length ∧
    (∀ pr ∈ (extract_excerpts content kw).zip
        (extractAux content kw ((findPositions (lowerStr kw) (lowerStr content)).take 6)
          [] []).2,
      ∃ pos ∈ findPositions (lowerStr kw) (lowerStr content),
        pr.2 = (pos - 150, min content.length (pos + kw.length + 150)) ∧
        pr.1.sectionName = orContent (find_section_for_position content pos) ∧
        pr.1.text =
          (if 0 < pos - 150 ∨ min content.length (pos + kw.length + 150) < content.length
           then "...".toList ++ stripStr (windowSlice content kw pos) ++ "...".toList
           else stripStr (windowSlice content kw pos)) ∧
        pr.1.match_count =
          countOcc (lowerStr kw) (lowerStr (stripStr (windowSlice content kw pos)))) ∧
    (∀ (docs : List SopDoc) (s : Str) (r : SearchResult),
      r ∈ search_sops docs kw s → r.excerpts.length ≤ 5) := by
  have base := extractAux_invariant content kw (findPositions (lowerStr kw) (lowerStr content))
    ((findPositions (lowerStr kw) (lowerStr content)).take 6) [] []
    (fun p hp => List.mem_of_mem_take hp) rfl (by simp) List.Pairwise.nil
    (by intro pr hpr; simp at hpr)
  refine ⟨base.2.1, base.2.2.1, base.1, ?_, ?_⟩
  · intro pr hpr
    obtain ⟨pos, hpos, hw, he⟩ := base.2.2.2 pr hpr
    exact ⟨pos, hpos, hw,
      by rw [he]; exact (mkExcerpt_fields content kw pos).1,
      by rw [he]; exact (mkExcerpt_fields content kw pos).2.1,
      by rw [he]; exact (mkExcerpt_fields content kw pos).2.2⟩
  · intro docs s r hr
    obtain ⟨d, hd, hres⟩ := mem_search_sops hr
    obtain ⟨hrec, _⟩ := resultFor_some hres
    rw [hrec]
    exact List.length_take_le 5 _

/-- Witness for C4 (amended) at the spec's torque scenario content. -/
theorem claim_c4_amended_witness :
    0 < countOcc (lowerStr ("torque".toList)) (lowerStr exampleDocA.content) ∧
    (extract_excerpts exampleDocA.content ("torque".toList)).length ≤ 3 :=
  ⟨by decide,
   (claim_c4_amended exampleDocA.content ("torque".toList) (by decide)).1⟩

/-! ## Claim C8 -/

theorem length_lowerStr (l : Str) : (lowerStr l).length = l.length :=
  List.length_map l pyLower

theorem length_dropWhile_le (p : Char → Bool) (l : Str) :
    (l.dropWhile p).length ≤ l.length := by
  induction l with
  | nil => simp
  | cons c rest ih =>
    rw [List.dropWhile_cons]
    split
    · exact le_trans ih (by simp)
    · simp

theorem stripStr_head_not_space {v : Str} (h : stripStr v = v) {c : Char}
    (hc : v.head? = some c) : isPySpace c = false := by
  cases v with
  | nil => cases hc
  | cons a v' =>
    rw [List.head?_cons, Option.some.injEq] at hc
    subst hc
    by_contra hsp
    rw [Bool.not_eq_false] at hsp
    have hlen : (stripStr (a :: v')).length ≤ v'.length := by
      unfold stripStr
      rw [List.dropWhile_cons, if_pos hsp]
      calc ((v'.dropWhile isPySpace).reverse.dropWhile isPySpace).reverse.length
          = ((v'.dropWhile isPySpace).reverse.dropWhile isPySpace).length := by
            rw [List.length_reverse]
        _ ≤ (v'.dropWhile isPySpace).reverse.length := length_dropWhile_le _ _
        _ = (v'.dropWhile isPySpace).length := by rw [List.length_reverse]
        _ ≤ v'.length := length_dropWhile_le _ _
    rw [h] at hlen
    simp at hlen

theorem wsRun_cons (c : Char) (l : Str) :
    wsRun (c :: l) = if isPySpace c then wsRun l + 1 else 0 := by
  unfold wsRun
  rw [List.takeWhile_cons]
  split
  · simp
  · simp

theorem takeLine_append {v X : Str} (hv : '\n' ∉ v)
    (hX : X.head? = some '\n' ∨ X = []) : takeLine (v ++ X) = v := by
  induction v with
  | nil =>
    rcases hX with hX | hX
    · cases X with
      | nil => cases hX
      | cons x X' =>
        obtain rfl : x = '\n' := by simpa using hX
        simp [takeLine]
    · rw [hX]
      rfl
  | cons c v' ih =>
    have hc : c ≠ '\n' := fun hcn => hv (hcn ▸ List.mem_cons_self c v')
    rw [List.cons_append]
    unfold takeLine
    rw [List.takeWhile_cons, if_pos (by simpa using hc)]
    have := ih (fun hm => hv (List.mem_cons_of_mem c hm))
    unfold takeLine at this
    rw [this]

theorem ciPrefix_append {lbl lab : Str} (rest : Str) (h : lowerStr lab = lbl) :
    ciPrefix lbl (lab ++ rest) = true := by
  unfold ciPrefix
  have hlen : lab.length = lbl.length := by rw [← h, length_lowerStr]
  rw [List.take_left' hlen, h]
  simp

theorem fieldValueAt_space {v : Str} (X : Str) (hv : v ≠ [])
    (hhead : ∀ c, v.head? = some c → isPySpace c = false) (hnl : '\n' ∉ v)
    (hX : X.head? = some '\n' ∨ X = []) :
    fieldValueAt (' ' :: (v ++ X)) = some (stripStr v) := by
  cases v with
  | nil => exact absurd rfl hv
  | cons c v' =>
    have hws : wsRun ((c :: v') ++ X) = 0 := by
      rw [List.cons_append, wsRun_cons, if_neg]
      rw [hhead c rfl]
      simp
    have h1 : wsRun (' ' :: ((c :: v') ++ X)) = 1 := by
      rw [wsRun_cons, if_pos (by decide), hws]
    unfold fieldValueAt
    simp only [h1, List.drop_one, List.tail_cons]
    rw [if_pos (by simp), takeLine_append hnl hX]

theorem searchField_skip (lbl p s : Str)
    (h : ∀ i, i < p.length → ciPrefix lbl ((p ++ s).drop i) = false) :
    searchField lbl (p ++ s) = searchField lbl s := by
  induction p with
  | nil => rfl
  | cons c p' ih =>
    rw [List.cons_append, searchField]
    rw [if_neg (by
      have h0 := h 0 (by simp)
      rw [List.drop_zero, List.cons_append] at h0
      rw [h0]
      simp)]
    exact ih (fun i hi => by
      have := h (i + 1) (by simpa using Nat.succ_lt_succ hi)
      rwa [List.cons_append, List.drop_succ_cons] at this)

theorem searchField_none (lbl : Str) :
    ∀ cc : Str, (∀ i, i < cc.length → ciPrefix lbl (cc.drop i) = false) →
    searchField lbl cc = none := by
  intro cc
  induction cc with
  | nil => intro _; rfl
  | cons c rest ih =>
    intro h
    rw [searchField]
    rw [if_neg (by
      have h0 := h 0 (by simp)
      rw [List.drop_zero] at h0
      rw [h0]
      simp)]
    exact ih (fun i hi => by
      have := h (i + 1) (by simpa using Nat.succ_lt_succ hi)
      rwa [List.drop_succ_cons] at this)

theorem fieldLabel_ne_nil (f : HeaderField) : fieldLabel f ≠ [] := by
  cases f <;> decide

theorem getHeaderField_parse (content fname : Str) (f : HeaderField) :
    getHeaderField (parse_sop_metadata content fname) f =
      fieldOrEmpty (findControl content) (fieldLabel f) := by
  cases f <;> rfl

/-- Claim C8: for every document whose Document Control section is found and
captured as `cc`, a header field whose label occurs (case-insensitively, first
at the stated position, in the canonical `**Label:** value` line form with a
clean value) is extracted equal to the value following its label; and a field
whose label is absent from the control block is present in the metadata
record with the empty-string value — the key is never absent, every header
field of `SopMetadata` is always populated. -/
theorem claim_c8 (content fname : Str) (f : HeaderField) (cc : Str)
    (hcc : findControl content = some cc) :
    (∀ (p lab v q : Str),
      cc = p ++ (lab ++ ' ' :: (v ++ '\n' :: q)) →
      lowerStr lab = fieldLabel f →
      (∀ i, i < p.length → ciPrefix (fieldLabel f) (cc.drop i) = false) →
      v ≠ [] → stripStr v = v → '\n' ∉ v →
      getHeaderField (parse_sop_metadata content fname) f = v) ∧
    ((∀ i, i < cc.length → ciPrefix (fieldLabel f) (cc.drop i) = false) →
      getHeaderField (parse_sop_metadata content fname) f = []) := by
  constructor
  · intro p lab v q hshape hlab hfirst hv hstrip hnl
    subst hshape
    rw [getHeaderField_parse, hcc]
    show (searchField (fieldLabel f) (p ++ (lab ++ ' ' :: (v ++ '\n' :: q)))).getD [] = v
    rw [searchField_skip (fieldLabel f) p (lab ++ ' ' :: (v ++ '\n' :: q)) hfirst]
    cases lab with
    | nil =>
      exact absurd hlab.symm (by simpa using (fieldLabel_ne_nil f))
    | cons c lab' =>
      have hlen : (c :: lab').length = (fieldLabel f).length := by
        rw [← hlab, length_lowerStr]
      have hci := ciPrefix_append (' ' :: (v ++ '\n' :: q)) hlab
      rw [List.cons_append] at hci
      rw [List.cons_append, searchField, if_pos hci, ← List.cons_append,
        List.drop_left' hlen,
        fieldValueAt_space ('\n' :: q) hv
          (fun c' hc' => stripStr_head_not_space hstrip hc') hnl
          (Or.inl (List.head?_cons)),
        hstrip]
      rfl
  · intro hnone
    rw [getHeaderField_parse, hcc]
    show (searchField (fieldLabel f) cc).getD [] = []
    rw [searchField_none _ cc hnone]
    rfl

set_option maxRecDepth 40000 in
/-- Witness for C8 on a concrete document: `Document ID` is present and
extracted; `Review Date` is absent and yields the empty string. -/
theorem claim_c8_witness :
    findControl ctrlDocContent =
      some (("**Document ID:** SOP-PROC-001\n**Version:** 2.0\n**Owner:** Jan\n").toList) ∧
    getHeaderField (parse_sop_metadata ctrlDocContent ("e.md".toList))
      HeaderField.documentId = ("SOP-PROC-001".toList) ∧
    getHeaderField (parse_sop_metadata ctrlDocContent ("e.md".toList))
      HeaderField.reviewDate = [] := by
  refine ⟨by decide, ?_, ?_⟩
  · exact (claim_c8 ctrlDocContent ("e.md".toList) HeaderField.documentId
        (("**Document ID:** SOP-PROC-001\n**Version:** 2.0\n**Owner:** Jan\n").toList)
        (by decide)).1
      [] ("**Document ID:**".toList) ("SOP-PROC-001".toList)
      (("**Version:** 2.0\n**Owner:** Jan\n").toList)
      (by decide) (by decide) (by intro i hi; simp at hi)
      (by decide) (by decide) (by decide)
  · exact (claim_c8 ctrlDocContent ("e.md".toList) HeaderField.reviewDate
        (("**Document ID:** SOP-PROC-001\n**Version:** 2.0\n**Owner:** Jan\n").toList)
        (by decide)).2
      (by decide)

set_option maxRecDepth 100000 in
/-- C7, counterexample: `c7Content` contains both heading lines `## 1 Setup`
and `### 1.1 Prerequisites`, yet no outline entry for section `1` lists the
subsection `1.1 Prerequisites` — the unanchored subsection pattern starts at
the malformed `### 1.1` line, its `\s+` crosses the newline, and the produced
subsection is `1.1 ### 1.1 Prerequisites` instead. -/
theorem claim_c7_counterexample :
    ("## 1 Setup".toList ∈ linesOf c7Content) ∧
    ("### 1.1 Prerequisites".toList ∈ linesOf c7Content) ∧
    ¬ ∃ s ∈ (parse_sop_metadata c7Content ("sop.md".toList)).sections,
        s.number = ("1".toList) ∧ ("1.1 Prerequisites".toList) ∈ s.subsections := by
  decide

/-! Line-local behaviour of the outline scans, towards claim C7: under the
heading discipline `CleanLine`, the multiline regex scans of
`_parse_sop_metadata` process the document line by line. -/

theorem digit_not_space {c : Char} (h : c.isDigit = true) : isPySpace c = false := by
  by_contra h2
  rw [Bool.not_eq_false] at h2
  simp only [isPySpace, Bool.or_eq_true, beq_iff_eq] at h2
  rcases h2 with ((((h2 | h2) | h2) | h2) | h2) | h2 <;> subst h2 <;>
    exact absurd h (by decide)

theorem digit_ne_hash {c : Char} (h : c.isDigit = true) : c ≠ '#' := by
  intro hc; subst hc; exact absurd h (by decide)

theorem digit_ne_nl {c : Char} (h : c.isDigit = true) : c ≠ '\n' := by
  intro hc; subst hc; exact absurd h (by decide)

theorem digit_ne_dot {c : Char} (h : c.isDigit = true) : c ≠ '.' := by
  intro hc; subst hc; exact absurd h (by decide)

theorem takeWhile_all_append {p : Char → Bool} {xs : Str} (h : ∀ x ∈ xs, p x = true)
    {c : Char} (hc : p c = false) (z : Str) :
    (xs ++ c :: z).takeWhile p = xs := by
  induction xs with
  | nil => simp [List.takeWhile_cons, hc]
  | cons a as ih =>
    rw [List.cons_append, List.takeWhile_cons, if_pos (h a (List.mem_cons_self a as)),
      ih (fun x hx => h x (List.mem_cons_of_mem a hx))]

theorem dropWhile_head_neg {p : Char → Bool} {l : Str} {c : Char}
    (hc : l.head? = some c) (h : p c = false) : l.dropWhile p = l := by
  cases l with
  | nil => cases hc
  | cons a as =>
    rw [List.head?_cons, Option.some.injEq] at hc
    subst hc
    rw [List.dropWhile_cons, if_neg (by simp [h])]

theorem cleanTitle_ne_nil {T : Str} (h : cleanTitle T = true) : T ≠ [] := by
  intro hT; subst hT; exact absurd h (by decide)

theorem cleanTitle_head {T : Str} (h : cleanTitle T = true) {c : Char}
    (hc : T.head? = some c) : isPySpace c = false := by
  cases T with
  | nil => cases hc
  | cons a T' =>
    rw [List.head?_cons, Option.some.injEq] at hc
    subst hc
    simp only [cleanTitle, Bool.and_eq_true] at h
    simpa using h.1.1

theorem cleanTitle_mem {T : Str} (h : cleanTitle T = true) {c : Char} (hc : c ∈ T) :
    c ≠ '#' ∧ c ≠ '\n' := by
  cases T with
  | nil => cases hc
  | cons a T' =>
    simp only [cleanTitle, Bool.and_eq_true, List.all_eq_true] at h
    have := h.1.2 c hc
    simpa using this

theorem cleanTitle_last {T : Str} (h : cleanTitle T = true) {c : Char}
    (hc : T.getLast? = some c) : isPySpace c = false := by
  cases T with
  | nil => cases hc
  | cons a T' =>
    simp only [cleanTitle] at h
    rw [Bool.and_eq_true] at h
    have h3 := h.2
    rw [hc] at h3
    simpa using h3

theorem stripStr_clean {T : Str} (h : cleanTitle T = true) : stripStr T = T := by
  have hne : T ≠ [] := cleanTitle_ne_nil h
  have hhead : T.head? = some (T.head hne) := List.head?_eq_head hne
  have hlast : T.getLast? = some (T.getLast hne) := List.getLast?_eq_getLast T hne
  unfold stripStr
  rw [dropWhile_head_neg hhead (cleanTitle_head h hhead)]
  rw [dropWhile_head_neg ((List.head?_reverse T).trans hlast) (cleanTitle_last h hlast)]
  exact List.reverse_reverse T

theorem stripStr_digits_space {ds : Str} (hne : ds ≠ [])
    (hd : ∀ c ∈ ds, c.isDigit = true) : stripStr (ds ++ [' ']) = ds := by
  cases ds with
  | nil => exact absurd rfl hne
  | cons d ds' =>
    have hdd : isPySpace d = false := digit_not_space (hd d (List.mem_cons_self d ds'))
    unfold stripStr
    rw [List.cons_append, dropWhile_head_neg List.head?_cons hdd, ← List.cons_append,
      List.reverse_append]
    show ((' ' :: (d :: ds').reverse).dropWhile isPySpace).reverse = d :: ds'
    rw [List.dropWhile_cons, if_pos (by decide)]
    have hg : (d :: ds').getLast? = some ((d :: ds').getLast (by simp)) :=
      List.getLast?_eq_getLast _ _
    rw [dropWhile_head_neg ((List.head?_reverse _).trans hg)
      (digit_not_space (hd _ (List.getLast_mem _)))]
    exact List.reverse_reverse _

theorem head?_append_left {l : Str} (h : l ≠ []) (r : Str) :
    (l ++ r).head? = l.head? := List.head?_append_of_ne_nil l h

theorem wsRun_eq_zero {l : Str} (h : ∀ c, l.head? = some c → isPySpace c = false) :
    wsRun l = 0 := by
  cases l with
  | nil => rfl
  | cons c t => rw [wsRun_cons, if_neg (by simp [h c List.head?_cons])]

theorem wsRun_space_cons {X : Str} (h : wsRun X = 0) : wsRun (' ' :: X) = 1 := by
  rw [wsRun_cons, if_pos (by decide), h]

theorem digitRun_append {ds : Str} (hd : ∀ c ∈ ds, c.isDigit = true) {c : Char}
    (hc : c.isDigit = false) (z : Str) : digitRun (ds ++ c :: z) = ds.length := by
  unfold digitRun
  rw [takeWhile_all_append hd hc]

theorem digitRun_eq_zero {l : Str} (h : ∀ c, l.head? = some c → c.isDigit = false) :
    digitRun l = 0 := by
  cases l with
  | nil => rfl
  | cons c t =>
    unfold digitRun
    rw [List.takeWhile_cons, if_neg (by simp [h c List.head?_cons])]
    rfl

theorem assoc3 (a b T rest : Str) :
    ((a ++ '.' :: b) ++ ' ' :: T) ++ rest = a ++ '.' :: (b ++ (' ' :: (T ++ rest))) := by
  simp [List.append_assoc]

/-- `matchSubAt` with the leading `###` consumed, `let`s expanded. -/
theorem matchSubAt_cons3 (num l3 : Str) :
    matchSubAt num ('#' :: '#' :: '#' :: l3) =
      (if wsRun l3 = 0 then none
       else
         if (num ++ ['.']).isPrefixOf (l3.drop (wsRun l3)) then
           if digitRun ((l3.drop (wsRun l3)).drop (num.length + 1)) = 0 then none
           else
             match afterWsTitle (((l3.drop (wsRun l3)).drop (num.length + 1)).drop
                 (digitRun ((l3.drop (wsRun l3)).drop (num.length + 1)))) with
             | some (t, c) =>
               some (((l3.drop (wsRun l3)).drop (num.length + 1)).take
                   (digitRun ((l3.drop (wsRun l3)).drop (num.length + 1))), t,
                 3 + wsRun l3 + num.length + 1 +
                   digitRun ((l3.drop (wsRun l3)).drop (num.length + 1)) + c)
             | none => none
         else none) := rfl

theorem matchSubAt_fail_not3 {num l : Str} (h : l.take 3 ≠ ['#', '#', '#']) :
    matchSubAt num l = none := by
  unfold matchSubAt
  split
  · exact absurd rfl h
  · rfl

theorem scanSubs_cons_none {num : Str} {c : Char} {t : Str}
    (h : matchSubAt num (c :: t) = none) :
    scanSubs num (c :: t) = scanSubs num t := by
  show scanSubsAux num 0 (c :: t) = scanSubsAux num 0 t
  rw [scanSubsAux, h]

theorem scanSubsAux_skip (num : Str) (l : Str) : ∀ k,
    scanSubsAux num k l = scanSubs num (l.drop k) := by
  induction l with
  | nil => intro k; cases k <;> rfl
  | cons c rest ih =>
    intro k
    cases k with
    | zero => rfl
    | succ k' =>
      rw [scanSubsAux, ih k']
      rfl

theorem scanSubs_cons_match {num : Str} {c : Char} {t d tt : Str} {consumed : Nat}
    (h : matchSubAt num (c :: t) = some (d, tt, consumed)) :
    scanSubs num (c :: t) =
      (num ++ ['.'] ++ d ++ [' '] ++ stripStr tt) :: scanSubs num (t.drop (consumed - 1)) := by
  show scanSubsAux num 0 (c :: t) = _
  rw [scanSubsAux, h]
  show (num ++ ['.'] ++ d ++ [' '] ++ stripStr tt) :: scanSubsAux num (consumed - 1) t = _
  rw [scanSubsAux_skip]

theorem scanSubs_append_nohash {num : Str} (seg : Str) (hseg : ∀ c ∈ seg, c ≠ '#')
    (rest : Str) : scanSubs num (seg ++ rest) = scanSubs num rest := by
  induction seg with
  | nil => rfl
  | cons c s ih =>
    have hc : matchSubAt num (c :: (s ++ rest)) = none := by
      apply matchSubAt_fail_not3
      intro h3
      rw [List.take_succ_cons] at h3
      injection h3 with h1 _
      exact hseg c (List.mem_cons_self c s) h1
    rw [List.cons_append, scanSubs_cons_none hc,
      ih (fun x hx => hseg x (List.mem_cons_of_mem c hx))]

/-- The literal `num.` of the subsection pattern matches at a position
`a ++ '.' :: z` with `a`, `num` digit strings exactly when `num = a`. -/
theorem prefix_digits_dot : ∀ (a num : Str), (∀ c ∈ num, c.isDigit = true) →
    (∀ c ∈ a, c.isDigit = true) → ∀ (z : Str),
    ((num ++ ['.']).isPrefixOf (a ++ '.' :: z) = true ↔ num = a) := by
  intro a
  induction a with
  | nil =>
    intro num hnum _ z
    cases num with
    | nil => simp [List.isPrefixOf]
    | cons d num' =>
      have hd : d ≠ '.' := digit_ne_dot (hnum d (List.mem_cons_self _ _))
      simp [List.isPrefixOf, hd]
  | cons x a' ih =>
    intro num hnum ha z
    have hx : x.isDigit = true := ha x (List.mem_cons_self _ _)
    cases num with
    | nil =>
      have hxd : ('.' : Char) ≠ x := fun h => digit_ne_dot hx h.symm
      simp [List.isPrefixOf, hxd]
    | cons d num' =>
      rw [List.cons_append, List.cons_append]
      show (d == x && (num' ++ ['.']).isPrefixOf (a' ++ '.' :: z)) = true ↔ _
      rw [Bool.and_eq_true, beq_iff_eq,
        ih num' (fun c hc => hnum c (List.mem_cons_of_mem d hc))
          (fun c hc => ha c (List.mem_cons_of_mem x hc)) z]
      constructor
      · rintro ⟨rfl, rfl⟩; rfl
      · intro h; injection h with h1 h2; exact ⟨h1, h2⟩

/-- `afterWsTitle` with the `let`s expanded. -/
theorem afterWsTitle_eq (l : Str) :
    afterWsTitle l =
      (if wsRun l = 0 then none
       else
         if l.drop (wsRun l) ≠ [] then
           some (takeLine (l.drop (wsRun l)), wsRun l + (takeLine (l.drop (wsRun l))).length)
         else
           match backSearch l 1 (wsRun l) with
           | some k => some (takeLine (l.drop k), k + (takeLine (l.drop k)).length)
           | none => none) := rfl

theorem afterWsTitle_space {T rest : Str} (hT : cleanTitle T = true)
    (hrest : rest.head? = some '\n' ∨ rest = []) :
    afterWsTitle (' ' :: (T ++ rest)) = some (T, 1 + T.length) := by
  have hTne : T ≠ [] := cleanTitle_ne_nil hT
  have hws : wsRun (' ' :: (T ++ rest)) = 1 :=
    wsRun_space_cons (wsRun_eq_zero (fun c hc => cleanTitle_head hT
      (by rw [head?_append_left hTne] at hc; exact hc)))
  have htl : takeLine (T ++ rest) = T :=
    takeLine_append (fun hm => (cleanTitle_mem hT hm).2 rfl) hrest
  rw [afterWsTitle_eq, hws, if_neg one_ne_zero]
  show (if T ++ rest ≠ [] then some (takeLine (T ++ rest), 1 + (takeLine (T ++ rest)).length)
    else _) = _
  rw [if_pos (by simp [hTne]), htl]

theorem matchSubAt_fail_lvl3 {num a b T : Str} (rest : Str)
    (hnum : ∀ c ∈ num, c.isDigit = true)
    (ha : a ≠ []) (had : ∀ c ∈ a, c.isDigit = true) (hne : num ≠ a) :
    matchSubAt num (('#' :: '#' :: '#' :: ' ' :: (a ++ '.' :: b ++ ' ' :: T)) ++ rest) =
      none := by
  have hshape : (('#' :: '#' :: '#' :: ' ' :: (a ++ '.' :: b ++ ' ' :: T)) ++ rest)
      = '#' :: '#' :: '#' :: (' ' :: (a ++ '.' :: (b ++ (' ' :: (T ++ rest))))) := by
    simp [List.append_assoc]
  have hws : wsRun (' ' :: (a ++ '.' :: (b ++ (' ' :: (T ++ rest))))) = 1 := by
    apply wsRun_space_cons
    apply wsRun_eq_zero
    intro c hc
    cases a with
    | nil => exact absurd rfl ha
    | cons a0 a' =>
      rw [List.cons_append, List.head?_cons, Option.some.injEq] at hc
      subst hc
      exact digit_not_space (had a0 (List.mem_cons_self _ _))
  have hpf : ¬((num ++ ['.']).isPrefixOf (a ++ '.' :: (b ++ (' ' :: (T ++ rest)))) = true) :=
    fun h => hne ((prefix_digits_dot a num hnum had _).mp h)
  rw [hshape, matchSubAt_cons3, hws, if_neg one_ne_zero]
  simp only [List.drop_succ_cons, List.drop_zero]
  rw [if_neg hpf]

theorem matchSubAt_lvl3_eq {num b T : Str} (rest : Str)
    (hnum0 : num ≠ []) (hnumd : ∀ c ∈ num, c.isDigit = true)
    (hb : b ≠ []) (hbd : ∀ c ∈ b, c.isDigit = true)
    (hT : cleanTitle T = true)
    (hrest : rest.head? = some '\n' ∨ rest = []) :
    matchSubAt num (('#' :: '#' :: '#' :: ' ' :: (num ++ '.' :: b ++ ' ' :: T)) ++ rest) =
      some (b, T, num.length + b.length + T.length + 6) := by
  have hshape : (('#' :: '#' :: '#' :: ' ' :: (num ++ '.' :: b ++ ' ' :: T)) ++ rest)
      = '#' :: '#' :: '#' :: (' ' :: (num ++ '.' :: (b ++ (' ' :: (T ++ rest))))) := by
    simp [List.append_assoc]
  have hws : wsRun (' ' :: (num ++ '.' :: (b ++ (' ' :: (T ++ rest))))) = 1 := by
    apply wsRun_space_cons
    apply wsRun_eq_zero
    intro c hc
    cases num with
    | nil => exact absurd rfl hnum0
    | cons n0 n' =>
      rw [List.cons_append, List.head?_cons, Option.some.injEq] at hc
      subst hc
      exact digit_not_space (hnumd n0 (List.mem_cons_self _ _))
  have hpf : (num ++ ['.']).isPrefixOf (num ++ '.' :: (b ++ (' ' :: (T ++ rest)))) = true :=
    (prefix_digits_dot num num hnumd hnumd _).mpr rfl
  rw [hshape, matchSubAt_cons3, hws, if_neg one_ne_zero]
  simp only [List.drop_succ_cons, List.drop_zero]
  rw [if_pos hpf]
  have hdrop1 : (num ++ '.' :: (b ++ (' ' :: (T ++ rest)))).drop (num.length + 1)
      = b ++ (' ' :: (T ++ rest)) := by
    rw [List.drop_append]
    rfl
  rw [hdrop1, digitRun_append hbd (by decide), if_neg (by simp [hb]),
    List.drop_left, afterWsTitle_space hT hrest]
  show some ((b ++ (' ' :: (T ++ rest))).take b.length, T,
    3 + 1 + num.length + 1 + b.length + (1 + T.length)) = _
  rw [List.take_left]
  have harith : 3 + 1 + num.length + 1 + b.length + (1 + T.length)
      = num.length + b.length + T.length + 6 := by omega
  rw [harith]

theorem take3_hash2 (X : Str) : ('#' :: '#' :: ' ' :: X).take 3 ≠ ['#', '#', '#'] := by
  intro h
  injection h with _ h
  injection h with _ h
  injection h with h _
  exact absurd h (by decide)

theorem take3_hash1 (X : Str) : ('#' :: ' ' :: X).take 3 ≠ ['#', '#', '#'] := by
  intro h
  injection h with _ h
  injection h with h _
  exact absurd h (by decide)

theorem assoc2 (a b T : Str) :
    (a ++ '.' :: b) ++ ' ' :: T = a ++ '.' :: (b ++ ' ' :: T) := by
  simp [List.append_assoc]

theorem lineSubEntry_not4 {num L : Str} (h : L.take 4 ≠ ['#', '#', '#', ' ']) :
    lineSubEntry num L = none := by
  unfold lineSubEntry
  split
  · exact absurd rfl h
  · rfl

/-- `lineSubEntry` with the leading `### ` consumed, `let`s expanded. -/
theorem lineSubEntry_cons4 (num rest0 : Str) :
    lineSubEntry num ('#' :: '#' :: '#' :: ' ' :: rest0) =
      (match rest0.drop (rest0.takeWhile (fun c : Char => c.isDigit)).length with
       | '.' :: r2 =>
         (match r2.drop (r2.takeWhile (fun c : Char => c.isDigit)).length with
          | ' ' :: t =>
            if rest0.takeWhile (fun c : Char => c.isDigit) = num ∧
                rest0.takeWhile (fun c : Char => c.isDigit) ≠ [] ∧
                r2.takeWhile (fun c : Char => c.isDigit) ≠ [] then
              some (num ++ ['.'] ++ r2.takeWhile (fun c : Char => c.isDigit) ++ [' '] ++ t)
            else none
          | _ => none)
       | _ => none) := rfl

theorem lineSubEntry_lvl3 {num a b T : Str}
    (ha : a ≠ []) (had : ∀ c ∈ a, c.isDigit = true)
    (hb : b ≠ []) (hbd : ∀ c ∈ b, c.isDigit = true) :
    lineSubEntry num ('#' :: '#' :: '#' :: ' ' :: (a ++ '.' :: b ++ ' ' :: T)) =
      if a = num then some (num ++ ['.'] ++ b ++ [' '] ++ T) else none := by
  rw [assoc2, lineSubEntry_cons4,
    takeWhile_all_append had (by decide : ('.' : Char).isDigit = false),
    List.drop_left]
  show (match (b ++ ' ' :: T).drop ((b ++ ' ' :: T).takeWhile (fun c : Char => c.isDigit)).length with
       | ' ' :: t =>
         if a = num ∧ a ≠ [] ∧ (b ++ ' ' :: T).takeWhile (fun c : Char => c.isDigit) ≠ [] then
           some (num ++ ['.'] ++ (b ++ ' ' :: T).takeWhile (fun c : Char => c.isDigit) ++ [' '] ++ t)
         else none
       | _ => none) = _
  rw [takeWhile_all_append hbd (by decide : (' ' : Char).isDigit = false), List.drop_left]
  show (if a = num ∧ a ≠ [] ∧ b ≠ [] then some (num ++ ['.'] ++ b ++ [' '] ++ T)
    else none) = _
  rcases eq_or_ne a num with rfl | hne
  · rw [if_pos ⟨rfl, ha, hb⟩, if_pos rfl]
  · rw [if_neg (fun hcon => hne hcon.1), if_neg hne]

theorem take4_ne_nohash {L : Str} (hnoh : ∀ c ∈ L, c ≠ '#') :
    L.take 4 ≠ ['#', '#', '#', ' '] := by
  intro h4
  have hm : '#' ∈ L.take 4 := by rw [h4]; exact List.mem_cons_self _ _
  exact hnoh '#' (List.mem_of_mem_take hm) rfl

theorem take4_lvl1 (X : Str) : ('#' :: ' ' :: X).take 4 ≠ ['#', '#', '#', ' '] := by
  intro h
  injection h with _ h
  injection h with h _
  exact absurd h (by decide)

theorem take4_lvl2 (X : Str) : ('#' :: '#' :: ' ' :: X).take 4 ≠ ['#', '#', '#', ' '] := by
  intro h
  injection h with _ h
  injection h with _ h
  injection h with h _
  exact absurd h (by decide)

/-- Under the heading discipline, `scanSubs` processes one leading line at a
time: the line contributes exactly its `lineSubEntry`. -/
theorem scanSubs_line {num L rest : Str} (hnum : ∀ c ∈ num, c.isDigit = true)
    (hL : CleanLine L) (hrest : rest.head? = some '\n' ∨ rest = []) :
    scanSubs num (L ++ rest) = (lineSubEntry num L).toList ++ scanSubs num rest := by
  cases hL with
  | noHash L hall =>
    have hnoh : ∀ c ∈ L, c ≠ '#' := by
      intro c hc
      have hb := List.all_eq_true.mp hall c hc
      rw [Bool.and_eq_true] at hb
      simpa using hb.1
    rw [scanSubs_append_nohash L hnoh rest, lineSubEntry_not4 (take4_ne_nohash hnoh)]
    rfl
  | lvl1 T hT =>
    have hnoh : ∀ c ∈ (' ' :: T : Str), c ≠ '#' := by
      intro c hc
      rcases List.mem_cons.mp hc with rfl | hc
      · decide
      · exact (cleanTitle_mem hT hc).1
    show scanSubs num ('#' :: ' ' :: (T ++ rest)) = _
    rw [scanSubs_cons_none (matchSubAt_fail_not3 (take3_hash1 (T ++ rest)))]
    show scanSubs num ((' ' :: T) ++ rest) = _
    rw [scanSubs_append_nohash (' ' :: T) hnoh rest, lineSubEntry_not4 (take4_lvl1 T)]
    rfl
  | lvl2 T hT hTd =>
    have hnoh : ∀ c ∈ (' ' :: T : Str), c ≠ '#' := by
      intro c hc
      rcases List.mem_cons.mp hc with rfl | hc
      · decide
      · exact (cleanTitle_mem hT hc).1
    show scanSubs num ('#' :: '#' :: ' ' :: (T ++ rest)) = _
    rw [scanSubs_cons_none (matchSubAt_fail_not3 (take3_hash2 (T ++ rest))),
      scanSubs_cons_none (matchSubAt_fail_not3 (take3_hash1 (T ++ rest)))]
    show scanSubs num ((' ' :: T) ++ rest) = _
    rw [scanSubs_append_nohash (' ' :: T) hnoh rest, lineSubEntry_not4 (take4_lvl2 T)]
    rfl
  | lvl2lab ds T hds hdsd hT =>
    have hnoh : ∀ c ∈ (' ' :: (ds ++ ' ' :: T) : Str), c ≠ '#' := by
      intro c hc
      rcases List.mem_cons.mp hc with rfl | hc
      · decide
      · rcases List.mem_append.mp hc with hc | hc
        · exact digit_ne_hash (hdsd c hc)
        · rcases List.mem_cons.mp hc with rfl | hc
          · decide
          · exact (cleanTitle_mem hT hc).1
    show scanSubs num ('#' :: '#' :: ' ' :: ((ds ++ ' ' :: T) ++ rest)) = _
    rw [scanSubs_cons_none (matchSubAt_fail_not3 (take3_hash2 ((ds ++ ' ' :: T) ++ rest))),
      scanSubs_cons_none (matchSubAt_fail_not3 (take3_hash1 ((ds ++ ' ' :: T) ++ rest)))]
    show scanSubs num ((' ' :: (ds ++ ' ' :: T)) ++ rest) = _
    rw [scanSubs_append_nohash (' ' :: (ds ++ ' ' :: T)) hnoh rest,
      lineSubEntry_not4 (take4_lvl2 (ds ++ ' ' :: T))]
    rfl
  | lvl3 a b T ha had hb hbd hT =>
    rcases eq_or_ne a num with rfl | hne
    · have hm : matchSubAt a
          ('#' :: (('#' :: '#' :: ' ' :: (a ++ '.' :: b ++ ' ' :: T)) ++ rest)) =
          some (b, T, a.length + b.length + T.length + 6) :=
        matchSubAt_lvl3_eq rest ha had hb hbd hT hrest
      show scanSubs a ('#' :: (('#' :: '#' :: ' ' :: (a ++ '.' :: b ++ ' ' :: T)) ++ rest)) = _
      rw [scanSubs_cons_match hm, stripStr_clean hT]
      have harith : a.length + b.length + T.length + 6 - 1
          = (('#' :: '#' :: ' ' :: (a ++ '.' :: b ++ ' ' :: T)) : Str).length := by
        simp [List.length_append, List.length_cons]
        omega
      rw [harith, List.drop_left, lineSubEntry_lvl3 ha had hb hbd, if_pos rfl]
      rfl
    · have hm : matchSubAt num
          ('#' :: '#' :: '#' :: ' ' :: ((a ++ '.' :: b ++ ' ' :: T) ++ rest)) = none :=
        matchSubAt_fail_lvl3 rest hnum ha had (fun h => hne h.symm)
      have hnoh : ∀ c ∈ (' ' :: (a ++ '.' :: b ++ ' ' :: T) : Str), c ≠ '#' := by
        intro c hc
        rcases List.mem_cons.mp hc with rfl | hc
        · decide
        · rcases List.mem_append.mp hc with hc | hc
          · rcases List.mem_append.mp hc with hc | hc
            · exact digit_ne_hash (had c hc)
            · rcases List.mem_cons.mp hc with rfl | hc
              · decide
              · exact digit_ne_hash (hbd c hc)
          · rcases List.mem_cons.mp hc with rfl | hc
            · decide
            · exact (cleanTitle_mem hT hc).1
      show scanSubs num ('#' :: '#' :: '#' :: ' ' :: ((a ++ '.' :: b ++ ' ' :: T) ++ rest)) = _
      rw [scanSubs_cons_none hm,
        scanSubs_cons_none (matchSubAt_fail_not3
          (take3_hash2 ((a ++ '.' :: b ++ ' ' :: T) ++ rest)))]
      show scanSubs num ('#' :: ' ' :: ((a ++ '.' :: b ++ ' ' :: T) ++ rest)) = _
      rw [scanSubs_cons_none (matchSubAt_fail_not3
          (take3_hash1 ((a ++ '.' :: b ++ ' ' :: T) ++ rest)))]
      show scanSubs num ((' ' :: (a ++ '.' :: b ++ ' ' :: T)) ++ rest) = _
      rw [scanSubs_append_nohash (' ' :: (a ++ '.' :: b ++ ' ' :: T)) hnoh rest,
        lineSubEntry_lvl3 ha had hb hbd, if_neg hne]
      rfl

/-- Over a clean-lined document, the subsection scan for `num` collects
exactly the per-line entries. -/
theorem scanSubs_join {num : Str} (hnum : ∀ c ∈ num, c.isDigit = true) :
    ∀ (lines : List Str), (∀ L ∈ lines, CleanLine L) →
    scanSubs num (joinLines lines) = lines.filterMap (lineSubEntry num) := by
  intro lines
  induction lines with
  | nil => intro _; rfl
  | cons L ls ih =>
    intro hclean
    cases ls with
    | nil =>
      rw [show joinLines [L] = L ++ [] from by simp [joinLines],
        scanSubs_line hnum (hclean L (List.mem_cons_self _ _)) (Or.inr rfl)]
      cases hopt : lineSubEntry num L <;> simp [List.filterMap_cons, hopt, scanSubs, scanSubsAux]
    | cons M ls' =>
      have hnl : matchSubAt num ('\n' :: joinLines (M :: ls')) = none :=
        matchSubAt_fail_not3 (by
          intro h3
          rw [List.take_succ_cons] at h3
          injection h3 with h1 _
          exact absurd h1 (by decide))
      rw [show joinLines (L :: M :: ls') = L ++ ('\n' :: joinLines (M :: ls')) from rfl,
        scanSubs_line hnum (hclean L (List.mem_cons_self _ _)) (Or.inl List.head?_cons),
        scanSubs_cons_none hnl, ih (fun L' hL' => hclean L' (List.mem_cons_of_mem L hL'))]
      cases hopt : lineSubEntry num L <;> simp [List.filterMap_cons, hopt, scanSubs, scanSubsAux]

/-- `matchSectionAt` with the leading `##` consumed, `let`s expanded. -/
theorem matchSectionAt_cons2 (l2 : Str) :
    matchSectionAt ('#' :: '#' :: l2) =
      (if wsRun l2 = 0 then none
       else
         if l2.drop (wsRun l2) = [] then
           match backSearch l2 1 (wsRun l2) with
           | some k =>
             some ([], stripStr (takeLine (l2.drop k)), 2 + k + (takeLine (l2.drop k)).length)
           | none => none
         else
           match tryLabel (l2.drop (wsRun l2)) with
           | some (d, dot, s) =>
             some (stripStr ((l2.drop (wsRun l2)).take (d + dot + s)),
               stripStr (takeLine ((l2.drop (wsRun l2)).drop (d + dot + s))),
               2 + wsRun l2 + d + dot + s +
                 (takeLine ((l2.drop (wsRun l2)).drop (d + dot + s))).length)
           | none =>
             some ([], stripStr (takeLine (l2.drop (wsRun l2))),
               2 + wsRun l2 + (takeLine (l2.drop (wsRun l2))).length)) := rfl

theorem matchSectionAt_fail_not2 {l : Str} (h : l.take 2 ≠ ['#', '#']) :
    matchSectionAt l = none := by
  unfold matchSectionAt
  split
  · exact absurd rfl h
  · rfl

theorem take2_lvl1 (X : Str) : ('#' :: ' ' :: X).take 2 ≠ ['#', '#'] := by
  intro h
  injection h with _ h
  injection h with h _
  exact absurd h (by decide)

theorem take2_ne_nohash {L : Str} (hnoh : ∀ c ∈ L, c ≠ '#') : L.take 2 ≠ ['#', '#'] := by
  intro h2
  have hm : '#' ∈ L.take 2 := by rw [h2]; exact List.mem_cons_self _ _
  exact hnoh '#' (List.mem_of_mem_take hm) rfl

theorem take3_ne_nohash {L : Str} (hnoh : ∀ c ∈ L, c ≠ '#') :
    L.take 3 ≠ ['#', '#', ' '] := by
  intro h3
  have hm : '#' ∈ L.take 3 := by rw [h3]; exact List.mem_cons_self _ _
  exact hnoh '#' (List.mem_of_mem_take hm) rfl

theorem take3_lvl1 (X : Str) : ('#' :: ' ' :: X).take 3 ≠ ['#', '#', ' '] := by
  intro h
  injection h with _ h
  injection h with h _
  exact absurd h (by decide)

theorem take3_lvl3 (X : Str) : ('#' :: '#' :: '#' :: X).take 3 ≠ ['#', '#', ' '] := by
  intro h
  injection h with _ h
  injection h with _ h
  injection h with h _
  exact absurd h (by decide)

theorem matchSectionAt_hash3 {l2 : Str} (h : l2.head? = some '#') :
    matchSectionAt ('#' :: '#' :: l2) = none := by
  have hws : wsRun l2 = 0 := wsRun_eq_zero (fun c hc => by
    rw [h, Option.some.injEq] at hc
    subst hc
    decide)
  rw [matchSectionAt_cons2, hws, if_pos rfl]

theorem scanSectionsAux_skip (l : Str) : ∀ k,
    scanSectionsAux k l = scanSections (l.drop k) := by
  induction l with
  | nil => intro k; cases k <;> rfl
  | cons c rest ih =>
    intro k
    cases k with
    | zero => rfl
    | succ k' =>
      rw [scanSectionsAux, ih k']
      rfl

theorem scanSections_cons_none {c : Char} {t : Str}
    (h : matchSectionAt (c :: t) = none) :
    scanSections (c :: t) = scanSections (t.drop (takeLine (c :: t)).length) := by
  show scanSectionsAux 0 (c :: t) = _
  rw [scanSectionsAux, h]
  show scanSectionsAux (takeLine (c :: t)).length t = _
  rw [scanSectionsAux_skip]

theorem scanSections_cons_match {c : Char} {t n tt : Str} {consumed : Nat}
    (h : matchSectionAt (c :: t) = some (n, tt, consumed)) :
    scanSections (c :: t) = (n, tt) :: scanSections (t.drop consumed) := by
  show scanSectionsAux 0 (c :: t) = _
  rw [scanSectionsAux, h]
  show (n, tt) :: scanSectionsAux consumed t = _
  rw [scanSectionsAux_skip]

theorem drop_line (L rest : Str) : (L ++ rest).drop (L.length + 1) = rest.drop 1 :=
  List.drop_append 1

theorem trySlen_succ (r2 : Str) (k : Nat) :
    trySlen r2 (k + 1) =
      (match (r2.drop (k + 1)).head? with
       | some c => if c = '\n' then trySlen r2 k else some (k + 1)
       | none => trySlen r2 k) := rfl

theorem tryDigits_succ (rest : Str) (d : Nat) :
    tryDigits rest (d + 1) =
      (match tryDot (rest.drop (d + 1)) with
       | some (dot, s) => some (d + 1, dot, s)
       | none => tryDigits rest d) := rfl

/-- On a run starting with a space, the optional dot of the label is absent
and the trailing `\s*` consumes the space, provided a non-newline character
follows. -/
theorem tryDot_space {T rest : Str} (hT : cleanTitle T = true) :
    tryDot (' ' :: (T ++ rest)) = some (0, 1) := by
  have hTne : T ≠ [] := cleanTitle_ne_nil hT
  have hws : wsRun (' ' :: (T ++ rest)) = 1 :=
    wsRun_space_cons (wsRun_eq_zero (fun c hc =>
      cleanTitle_head hT (by rwa [head?_append_left hTne] at hc)))
  have hsl : trySlen (' ' :: (T ++ rest)) 1 = some 1 := by
    rw [trySlen_succ]
    cases T with
    | nil => exact absurd rfl hTne
    | cons c0 T' =>
      show (match ((c0 :: T') ++ rest).head? with
        | some c => if c = '\n' then trySlen (' ' :: ((c0 :: T') ++ rest)) 0 else some 1
        | none => trySlen (' ' :: ((c0 :: T') ++ rest)) 0) = some 1
      rw [List.cons_append, List.head?_cons]
      show (if c0 = '\n' then trySlen (' ' :: ((c0 :: T') ++ rest)) 0 else some 1) = some 1
      rw [if_neg (fun hnl => by
        rw [hnl] at hT
        exact absurd (cleanTitle_head hT List.head?_cons) (by decide))]
  have h1 : tryDot (' ' :: (T ++ rest))
      = (trySlen (' ' :: (T ++ rest)) (wsRun (' ' :: (T ++ rest)))).map
        (fun s => ((0 : Nat), s)) := rfl
  rw [h1, hws, hsl]
  rfl

theorem matchSectionAt_lvl2 {T rest : Str} (hT : cleanTitle T = true)
    (hTd : firstNonDigit T = true) (hrest : rest.head? = some '\n' ∨ rest = []) :
    matchSectionAt ('#' :: '#' :: ' ' :: (T ++ rest)) = some ([], T, T.length + 3) := by
  have hTne : T ≠ [] := cleanTitle_ne_nil hT
  have hws : wsRun (' ' :: (T ++ rest)) = 1 :=
    wsRun_space_cons (wsRun_eq_zero (fun c hc =>
      cleanTitle_head hT (by rwa [head?_append_left hTne] at hc)))
  have hdg : digitRun (T ++ rest) = 0 := digitRun_eq_zero (fun c hc => by
    rw [head?_append_left hTne] at hc
    cases T with
    | nil => exact absurd rfl hTne
    | cons c0 T' =>
      rw [List.head?_cons, Option.some.injEq] at hc
      subst hc
      simpa [firstNonDigit] using hTd)
  have hlab : tryLabel (T ++ rest) = none := by
    unfold tryLabel
    rw [hdg]
    rfl
  rw [matchSectionAt_cons2, hws, if_neg one_ne_zero]
  simp only [List.drop_succ_cons, List.drop_zero]
  rw [if_neg (by simp [hTne]), hlab,
    takeLine_append (fun hm => (cleanTitle_mem hT hm).2 rfl) hrest]
  show some ([], stripStr T, 2 + 1 + T.length) = some ([], T, T.length + 3)
  rw [stripStr_clean hT, show 2 + 1 + T.length = T.length + 3 from by omega]

theorem matchSectionAt_lvl2lab {ds T rest : Str} (hds : ds ≠ [])
    (hdsd : ∀ c ∈ ds, c.isDigit = true) (hT : cleanTitle T = true)
    (hrest : rest.head? = some '\n' ∨ rest = []) :
    matchSectionAt ('#' :: '#' :: ' ' :: ((ds ++ ' ' :: T) ++ rest)) =
      some (ds, T, ds.length + T.length + 4) := by
  have hshape : (ds ++ ' ' :: T) ++ rest = ds ++ (' ' :: (T ++ rest)) := by
    simp [List.append_assoc]
  have hws : wsRun (' ' :: (ds ++ (' ' :: (T ++ rest)))) = 1 := by
    apply wsRun_space_cons
    apply wsRun_eq_zero
    intro c hc
    cases ds with
    | nil => exact absurd rfl hds
    | cons d0 ds' =>
      rw [List.cons_append, List.head?_cons, Option.some.injEq] at hc
      subst hc
      exact digit_not_space (hdsd d0 (List.mem_cons_self _ _))
  have hdg : digitRun (ds ++ (' ' :: (T ++ rest))) = ds.length :=
    digitRun_append hdsd (by decide) _
  have hdrop : (ds ++ (' ' :: (T ++ rest))).drop ds.length = ' ' :: (T ++ rest) :=
    List.drop_left _ _
  have hlab : tryLabel (ds ++ (' ' :: (T ++ rest))) = some (ds.length, 0, 1) := by
    unfold tryLabel
    rw [hdg]
    cases ds with
    | nil => exact absurd rfl hds
    | cons d0 ds' =>
      simp only [List.length_cons] at hdrop ⊢
      rw [tryDigits_succ, hdrop, tryDot_space hT]
  have htake : (ds ++ (' ' :: (T ++ rest))).take (ds.length + 0 + 1) = ds ++ [' '] := by
    rw [show ds.length + 0 + 1 = ds.length + 1 from by omega, List.take_append]
    rfl
  have hdrop2 : (ds ++ (' ' :: (T ++ rest))).drop (ds.length + 0 + 1) = T ++ rest := by
    rw [show ds.length + 0 + 1 = ds.length + 1 from by omega, List.drop_append]
    rfl
  rw [matchSectionAt_cons2]
  rw [hshape, hws, if_neg one_ne_zero]
  simp only [List.drop_succ_cons, List.drop_zero]
  rw [if_neg (by simp [hds]), hlab]
  show some (stripStr ((ds ++ (' ' :: (T ++ rest))).take (ds.length + 0 + 1)),
    stripStr (takeLine ((ds ++ (' ' :: (T ++ rest))).drop (ds.length + 0 + 1))),
    2 + 1 + ds.length + 0 + 1 +
      (takeLine ((ds ++ (' ' :: (T ++ rest))).drop (ds.length + 0 + 1))).length) = _
  rw [htake, hdrop2, stripStr_digits_space hds hdsd,
    takeLine_append (fun hm => (cleanTitle_mem hT hm).2 rfl) hrest, stripStr_clean hT,
    show 2 + 1 + ds.length + 0 + 1 + T.length = ds.length + T.length + 4 from by omega]

theorem lineSectionEntry_not3 {L : Str} (h : L.take 3 ≠ ['#', '#', ' ']) :
    lineSectionEntry L = none := by
  unfold lineSectionEntry
  split
  · exact absurd rfl h
  · rfl

/-- `lineSectionEntry` with the leading `## ` consumed, `let`s expanded. -/
theorem lineSectionEntry_cons3 (rest0 : Str) :
    lineSectionEntry ('#' :: '#' :: ' ' :: rest0) =
      (if rest0.takeWhile (fun c : Char => c.isDigit) = [] then some (([] : Str), rest0)
       else
         match rest0.drop (rest0.takeWhile (fun c : Char => c.isDigit)).length with
         | ' ' :: t => some (rest0.takeWhile (fun c : Char => c.isDigit), t)
         | _ => none) := rfl

theorem lineSectionEntry_lvl2 {T : Str} (hTd : firstNonDigit T = true) :
    lineSectionEntry ('#' :: '#' :: ' ' :: T) = some ([], T) := by
  rw [lineSectionEntry_cons3]
  have htw : T.takeWhile (fun c : Char => c.isDigit) = [] := by
    cases T with
    | nil => rfl
    | cons c0 T' =>
      rw [List.takeWhile_cons, if_neg (by simpa [firstNonDigit] using hTd)]
  rw [htw, if_pos rfl]

theorem lineSectionEntry_lvl2lab {ds T : Str} (hds : ds ≠ [])
    (hdsd : ∀ c ∈ ds, c.isDigit = true) :
    lineSectionEntry ('#' :: '#' :: ' ' :: (ds ++ ' ' :: T)) = some (ds, T) := by
  rw [lineSectionEntry_cons3,
    takeWhile_all_append hdsd (by decide : (' ' : Char).isDigit = false),
    if_neg hds, List.drop_left]
  rfl

theorem lineSectionEntry_digits {L n t : Str} (h : lineSectionEntry L = some (n, t)) :
    ∀ c ∈ n, c.isDigit = true := by
  intro c hc
  unfold lineSectionEntry at h
  split at h
  · simp only [] at h
    split at h
    · rw [Option.some.injEq, Prod.mk.injEq] at h
      obtain ⟨h1, -⟩ := h
      subst h1
      cases hc
    · split at h
      · rw [Option.some.injEq, Prod.mk.injEq] at h
        obtain ⟨h1, -⟩ := h
        subst h1
        exact List.mem_takeWhile_imp hc
      · cases h
  · cases h

theorem take2_head_ne {l : Str} (h : ∀ c, l.head? = some c → c ≠ '#') :
    l.take 2 ≠ ['#', '#'] := by
  cases l with
  | nil => exact (by decide)
  | cons c t =>
    intro h2
    rw [List.take_succ_cons] at h2
    injection h2 with h1 _
    exact h c List.head?_cons h1

theorem take3_head_ne {l : Str} (h : ∀ c, l.head? = some c → c ≠ '#') :
    l.take 3 ≠ ['#', '#', ' '] := by
  cases l with
  | nil => exact (by decide)
  | cons c t =>
    intro h3
    rw [List.take_succ_cons] at h3
    injection h3 with h1 _
    exact h c List.head?_cons h1

theorem scanSections_step_none {l : Str} (hne : l ≠ [])
    (h : matchSectionAt l = none) :
    scanSections l = scanSections (l.drop ((takeLine l).length + 1)) := by
  cases l with
  | nil => exact absurd rfl hne
  | cons c t =>
    rw [scanSections_cons_none h]
    rfl

/-- A failing clean line is skipped wholesale by the section scan. -/
theorem scanSections_step_line (L rest : Str) (hnonl : '\n' ∉ L)
    (hrest : rest.head? = some '\n' ∨ rest = [])
    (h : matchSectionAt (L ++ rest) = none) :
    scanSections (L ++ rest) = scanSections (rest.drop 1) := by
  cases hl : L ++ rest with
  | nil =>
    have hr0 : rest = [] := (List.append_eq_nil.mp hl).2
    rw [hr0]
    rfl
  | cons c t =>
    rw [← hl, scanSections_step_none (by rw [hl]; exact List.cons_ne_nil c t) h,
      takeLine_append hnonl hrest, drop_line]

/-- A matching clean line contributes its entry and the scan resumes at the
following line. -/
theorem scanSections_step_match (L rest : Str) {n tt : Str} {consumed : Nat}
    (h : matchSectionAt (L ++ rest) = some (n, tt, consumed))
    (hcon : consumed = L.length) (hL : L ≠ []) :
    scanSections (L ++ rest) = (n, tt) :: scanSections (rest.drop 1) := by
  subst hcon
  cases L with
  | nil => exact absurd rfl hL
  | cons c V =>
    have h' : matchSectionAt (c :: (V ++ rest)) = some (n, tt, (c :: V : Str).length) := h
    rw [List.cons_append, scanSections_cons_match h', List.length_cons, drop_line]

/-- Under the heading discipline, `scanSections` processes one leading line at
a time: the line contributes exactly its `lineSectionEntry`. -/
theorem scanSections_line {L rest : Str} (hL : CleanLine L)
    (hrest : rest.head? = some '\n' ∨ rest = []) :
    scanSections (L ++ rest) =
      (lineSectionEntry L).toList ++ scanSections (rest.drop 1) := by
  cases hL with
  | noHash L hall =>
    have hnoh : ∀ c ∈ L, c ≠ '#' := by
      intro c hc
      have hb := List.all_eq_true.mp hall c hc
      rw [Bool.and_eq_true] at hb
      simpa using hb.1
    have hnonl : '\n' ∉ L := by
      intro hm
      have hb := List.all_eq_true.mp hall _ hm
      rw [Bool.and_eq_true] at hb
      simpa using hb.2
    have hhd : ∀ c, (L ++ rest).head? = some c → c ≠ '#' := by
      intro c hc
      cases L with
      | nil =>
        rw [List.nil_append] at hc
        rcases hrest with hr | hr
        · rw [hr, Option.some.injEq] at hc
          subst hc
          decide
        · rw [hr] at hc
          cases hc
      | cons c0 L' =>
        rw [List.cons_append, List.head?_cons, Option.some.injEq] at hc
        subst hc
        exact hnoh c0 (List.mem_cons_self _ _)
    have hLhd : ∀ c, L.head? = some c → c ≠ '#' := by
      intro c hc
      cases L with
      | nil => cases hc
      | cons c0 L' =>
        rw [List.head?_cons, Option.some.injEq] at hc
        subst hc
        exact hnoh c0 (List.mem_cons_self _ _)
    rw [scanSections_step_line L rest hnonl hrest
        (matchSectionAt_fail_not2 (take2_head_ne hhd)),
      lineSectionEntry_not3 (take3_head_ne hLhd)]
    rfl
  | lvl1 T hT =>
    have hnonl : '\n' ∉ ('#' :: ' ' :: T : Str) := by
      intro hm
      rcases List.mem_cons.mp hm with h1 | hm
      · exact absurd h1 (by decide)
      · rcases List.mem_cons.mp hm with h1 | hm
        · exact absurd h1 (by decide)
        · exact (cleanTitle_mem hT hm).2 rfl
    have hm : matchSectionAt (('#' :: ' ' :: T) ++ rest) = none :=
      matchSectionAt_fail_not2 (take2_lvl1 (T ++ rest))
    rw [scanSections_step_line _ rest hnonl hrest hm,
      lineSectionEntry_not3 (take3_lvl1 T)]
    rfl
  | lvl2 T hT hTd =>
    have hm : matchSectionAt (('#' :: '#' :: ' ' :: T) ++ rest) =
        some ([], T, T.length + 3) := matchSectionAt_lvl2 hT hTd hrest
    rw [scanSections_step_match _ rest hm
        (by simp only [List.length_cons]) (by simp),
      lineSectionEntry_lvl2 hTd]
    rfl
  | lvl2lab ds T hds hdsd hT =>
    have hm : matchSectionAt (('#' :: '#' :: ' ' :: (ds ++ ' ' :: T)) ++ rest) =
        some (ds, T, ds.length + T.length + 4) := matchSectionAt_lvl2lab hds hdsd hT hrest
    rw [scanSections_step_match _ rest hm
        (by simp only [List.length_cons, List.length_append]; omega) (by simp),
      lineSectionEntry_lvl2lab hds hdsd]
    rfl
  | lvl3 a b T ha had hb hbd hT =>
    have hm : matchSectionAt (('#' :: '#' :: '#' :: ' ' :: (a ++ '.' :: b ++ ' ' :: T))
        ++ rest) = none := matchSectionAt_hash3 List.head?_cons
    have hnonl : '\n' ∉ ('#' :: '#' :: '#' :: ' ' :: (a ++ '.' :: b ++ ' ' :: T) : Str) := by
      intro hm2
      rcases List.mem_cons.mp hm2 with h1 | hm2
      · exact absurd h1 (by decide)
      · rcases List.mem_cons.mp hm2 with h1 | hm2
        · exact absurd h1 (by decide)
        · rcases List.mem_cons.mp hm2 with h1 | hm2
          · exact absurd h1 (by decide)
          · rcases List.mem_cons.mp hm2 with h1 | hm2
            · exact absurd h1 (by decide)
            · rcases List.mem_append.mp hm2 with hm2 | hm2
              · rcases List.mem_append.mp hm2 with hm2 | hm2
                · exact absurd (had _ hm2) (by decide)
                · rcases List.mem_cons.mp hm2 with h1 | hm2
                  · exact absurd h1 (by decide)
                  · exact absurd (hbd _ hm2) (by decide)
              · rcases List.mem_cons.mp hm2 with h1 | hm2
                · exact absurd h1 (by decide)
                · exact (cleanTitle_mem hT hm2).2 rfl
    rw [scanSections_step_line _ rest hnonl hrest hm,
      lineSectionEntry_not3 (take3_lvl3 (' ' :: (a ++ '.' :: b ++ ' ' :: T)))]
    rfl

/-- Over a clean-lined document, the section scan collects exactly the
per-line entries. -/
theorem scanSections_join :
    ∀ (lines : List Str), (∀ L ∈ lines, CleanLine L) →
    scanSections (joinLines lines) = lines.filterMap lineSectionEntry := by
  intro lines
  induction lines with
  | nil => intro _; rfl
  | cons L ls ih =>
    intro hclean
    cases ls with
    | nil =>
      rw [show joinLines [L] = L ++ [] from by simp [joinLines],
        scanSections_line (hclean L (List.mem_cons_self _ _)) (Or.inr rfl)]
      cases hopt : lineSectionEntry L <;>
        simp [List.filterMap_cons, hopt, scanSections, scanSectionsAux]
    | cons M ls' =>
      rw [show joinLines (L :: M :: ls') = L ++ ('\n' :: joinLines (M :: ls')) from rfl,
        scanSections_line (hclean L (List.mem_cons_self _ _)) (Or.inl List.head?_cons)]
      rw [show (('\n' :: joinLines (M :: ls') : Str)).drop 1 = joinLines (M :: ls') from rfl,
        ih (fun L' hL' => hclean L' (List.mem_cons_of_mem L hL'))]
      cases hopt : lineSectionEntry L <;> simp [List.filterMap_cons, hopt]

/-- C7, amended: for documents whose lines obey the heading discipline
`CleanLine` (each line is hash-free or a well-formed level-1/2/3 heading),
the outline is exactly the line-local one the spec describes: one entry per
second-level heading line (with its optional numeric label), whose
subsections are the third-level heading lines `### n.m title` with `n` the
parent's number, collected across the whole document; in particular a
document with lines `## 1 Setup` and `### 1.1 Prerequisites` has an outline
entry for section `1` titled `Setup` listing subsection `1.1 Prerequisites`.
(Without the discipline the claim fails, see the counterexample.) -/
theorem claim_c7_amended (lines : List Str) (content fname : Str)
    (hcontent : content = joinLines lines)
    (hclean : ∀ L ∈ lines, CleanLine L)
    (h1 : ("## 1 Setup".toList) ∈ lines)
    (h2 : ("### 1.1 Prerequisites".toList) ∈ lines) :
    (parse_sop_metadata content fname).sections =
      lines.filterMap (fun L => (lineSectionEntry L).map
        (fun p => ⟨p.1, p.2, lines.filterMap (lineSubEntry p.1)⟩)) ∧
    ∃ s ∈ (parse_sop_metadata content fname).sections,
      s.number = ("1".toList) ∧ s.title = ("Setup".toList) ∧
      ("1.1 Prerequisites".toList) ∈ s.subsections := by
  subst hcontent
  have hsec : (parse_sop_metadata (joinLines lines) fname).sections =
      lines.filterMap (fun L => (lineSectionEntry L).map
        (fun p => ⟨p.1, p.2, lines.filterMap (lineSubEntry p.1)⟩)) := by
    show (scanSections (joinLines lines)).map
        (fun p => (⟨p.1, p.2, scanSubs p.1 (joinLines lines)⟩ : SectionInfo)) = _
    rw [scanSections_join lines hclean, List.map_filterMap]
    apply List.filterMap_congr
    intro L hLmem
    cases hopt : lineSectionEntry L with
    | none => rfl
    | some p =>
      obtain ⟨n, t⟩ := p
      have hdig := lineSectionEntry_digits hopt
      show some (⟨n, t, scanSubs n (joinLines lines)⟩ : SectionInfo) =
        some ⟨n, t, lines.filterMap (lineSubEntry n)⟩
      rw [scanSubs_join hdig lines hclean]
  refine ⟨hsec, ?_⟩
  have hentry : lineSectionEntry ("## 1 Setup".toList) =
      some (("1".toList), ("Setup".toList)) := by decide
  refine ⟨⟨("1".toList), ("Setup".toList), lines.filterMap (lineSubEntry ("1".toList))⟩,
    ?_, rfl, rfl, ?_⟩
  · rw [hsec]
    exact List.mem_filterMap.mpr ⟨_, h1, by rw [hentry]; rfl⟩
  · exact List.mem_filterMap.mpr ⟨_, h2, by decide⟩

set_option maxRecDepth 20000 in
/-- Witness for C7 on a concrete clean document. -/
theorem claim_c7_amended_witness :
    ∃ s ∈ (parse_sop_metadata
        (joinLines [("Intro".toList), ("## 1 Setup".toList),
          ("### 1.1 Prerequisites".toList)])
        ("sop.md".toList)).sections,
      s.number = ("1".toList) ∧ s.title = ("Setup".toList) ∧
      ("1.1 Prerequisites".toList) ∈ s.subsections :=
  (claim_c7_amended
    [("Intro".toList), ("## 1 Setup".toList), ("### 1.1 Prerequisites".toList)]
    _ ("sop.md".toList) rfl
    (by
      intro L hL
      rcases List.mem_cons.mp hL with rfl | hL
      · exact CleanLine.noHash _ (by decide)
      · rcases List.mem_cons.mp hL with rfl | hL
        · have hsh : ("## 1 Setup".toList) =
              '#' :: '#' :: ' ' :: (("1".toList) ++ ' ' :: ("Setup".toList)) := by decide
          rw [hsh]
          exact CleanLine.lvl2lab _ _ (by decide) (by decide) (by decide)
        · rcases List.mem_cons.mp hL with rfl | hL
          · have hsh : ("### 1.1 Prerequisites".toList) =
                '#' :: '#' :: '#' :: ' ' ::
                  (("1".toList) ++ '.' :: ("1".toList) ++ ' ' :: ("Prerequisites".toList)) := by
              decide
            rw [hsh]
            exact CleanLine.lvl3 _ _ _ (by decide) (by decide) (by decide) (by decide)
              (by decide)
          · cases hL)
    (by decide) (by decide)).2
